import Mathlib

/-!
Verification development for the `inline_poly` polymorphic inline-storage
containers (`include/inline_poly.h`).

The C++ header is shallowly embedded: occupant objects are abstracted to
`Nat` identities, raw storage addresses are dropped (slot index plays the
role of the storage address), and each operation of `poly_array` /
`poly_vector` becomes a pure Lean function on an explicit state record.
Exceptions are modelled by an `Outcome` type whose error case carries the
state of the container at the moment the exception escapes, so that
post-failure invariants can be stated.  A possibly-throwing placement
constructor is modelled by a boolean parameter saying whether the
constructor call succeeds.
-/

set_option maxRecDepth 4000

namespace InlinePoly

/-- Static traits of a concrete C++ type `T`, the inputs consumed by
`type_operations_factory<T>::create()`. -/
structure TypeTraits where
  size : Nat
  alignment : Nat
  is_trivially_copyable : Bool
  is_copy_constructible : Bool
  is_move_constructible : Bool
  is_move_assignable : Bool
  is_copy_assignable : Bool
deriving DecidableEq, Repr

/-- `struct type_operations`: the type-erased operation table.  Function
pointers are abstracted to presence flags (`has_x` means the pointer is
non-null); the trait fields are kept verbatim. -/
structure type_operations where
  has_destroy : Bool
  has_move_construct : Bool
  has_move_assign : Bool
  has_copy_construct : Bool
  has_copy_assign : Bool
  size : Nat
  alignment : Nat
  is_trivially_copyable : Bool
  is_copy_constructible : Bool
  is_move_constructible : Bool
deriving DecidableEq, Repr

/-- `type_operations_factory<T>::create()`: the destroy pointer is always
set; move/copy construct/assign pointers are set exactly when the
corresponding trait holds. -/
def type_operations_factory (t : TypeTraits) : type_operations where
  has_destroy := true
  has_move_construct := t.is_move_constructible
  has_move_assign := t.is_move_assignable
  has_copy_construct := t.is_copy_constructible
  has_copy_assign := t.is_copy_assignable
  size := t.size
  alignment := t.alignment
  is_trivially_copyable := t.is_trivially_copyable
  is_copy_constructible := t.is_copy_constructible
  is_move_constructible := t.is_move_constructible

/-- The error conditions signalled (thrown) by the header, identified by
their semantic category (the C++ code throws `std::out_of_range`,
`std::logic_error`, `std::runtime_error`, `std::length_error` with
distinguishing messages).  `ctorFailure` stands for an arbitrary exception
escaping a user constructor invoked by placement `new`. -/
inductive PolyError where
  | outOfRange
  | capacityExceeded
  /-- `std::logic_error("Cannot copy ...: contains non-copyable types")`,
  the whole-container copy gate. -/
  | notCopyable
  | shiftUnsupported
  /-- `std::runtime_error("No move or copy constructor available")` from
  `safe_move_construct`. -/
  | noRelocation
  /-- `std::runtime_error("Type is not copy constructible")` from
  `safe_copy_construct`. -/
  | notCopyConstructible
  | lengthError
  | ctorFailure
deriving DecidableEq, Repr

/-- The strategy chosen by `safe_move_construct` for one relocation. -/
inductive RelocChoice where
  /-- `std::memcpy(dst, src, n)` of exactly `n` bytes. -/
  | memcpyBytes (n : Nat)
  /-- `ops.move_construct(dst, src)`. -/
  | moveCtor
  /-- fallback `ops.copy_construct(dst, src)`. -/
  | copyCtor
  /-- the helper throws; `e` identifies the `std::runtime_error`. -/
  | failed (e : PolyError)
deriving DecidableEq, Repr

/-- `safe_move_construct`: branch structure of the helper, returning which
action it takes. -/
def safe_move_construct (ops : type_operations) : RelocChoice :=
  if ops.is_trivially_copyable then .memcpyBytes ops.size
  else if ops.has_move_construct then .moveCtor
  else if ops.has_copy_construct then .copyCtor
  else .failed .noRelocation

/-- `safe_copy_construct`: branch structure of the helper. -/
def safe_copy_construct (ops : type_operations) : RelocChoice :=
  if ops.has_copy_construct then .copyCtor
  else if ops.is_trivially_copyable then .memcpyBytes ops.size
  else .failed .notCopyConstructible

/-- Did the relocation helper succeed (not throw)? -/
def RelocChoice.isOk : RelocChoice → Bool
  | .failed _ => false
  | _ => true

/-- `struct slot_info`: `{ Base* ptr; const type_operations* ops; }`.
The occupant object behind `ptr` is abstracted to a `Nat` identity;
`none` models a null pointer. -/
structure slot_info where
  ptr : Option Nat
  ops : Option type_operations
deriving DecidableEq, Repr

/-- The value-initialized `slot_info{}`: both pointers null. -/
def slot_info.empty : slot_info := ⟨none, none⟩

instance : Inhabited slot_info := ⟨slot_info.empty⟩

/-- A slot is occupied in the sense the header tests everywhere:
`slots_[i].ptr && slots_[i].ops`. -/
def slot_info.occupied (sl : slot_info) : Bool :=
  sl.ptr.isSome && sl.ops.isSome

/-- `destroy_at(index)` acting on the slot array: if `ptr && ops`,
invoke `safe_destroy` and reset the record to `{}`. -/
def destroySlot (slots : List slot_info) (i : Nat) : List slot_info :=
  if (slots.getD i slot_info.empty).occupied then slots.set i slot_info.empty
  else slots

instance exceptDecEq {ε α : Type} [DecidableEq ε] [DecidableEq α] :
    DecidableEq (Except ε α) := fun a b =>
  match a, b with
  | .error e1, .error e2 =>
    if h : e1 = e2 then .isTrue (by rw [h])
    else .isFalse (fun hc => h (by injection hc))
  | .ok v1, .ok v2 =>
    if h : v1 = v2 then .isTrue (by rw [h])
    else .isFalse (fun hc => h (by injection hc))
  | .error _, .ok _ => .isFalse (fun hc => Except.noConfusion hc)
  | .ok _, .error _ => .isFalse (fun hc => Except.noConfusion hc)

/-- Outcome of a container operation: `ok` returns normally, `err e s`
throws exception `e` leaving the container in state `s`. -/
inductive Outcome (σ : Type) where
  | ok (s : σ)
  | err (e : PolyError) (s : σ)
deriving DecidableEq, Repr

/-- The container state the operation leaves behind, throw or no throw. -/
def Outcome.state {σ : Type} : Outcome σ → σ
  | .ok s => s
  | .err _ s => s

/-- Is the outcome a normal return? -/
def Outcome.isOk {σ : Type} : Outcome σ → Bool
  | .ok _ => true
  | .err _ _ => false

-- =========================================================================
-- poly_vector
-- =========================================================================

/-- State of a `poly_vector<Base, Capacity, ...>`.  `slots.length` is the
`Capacity` template parameter; the raw byte storage is not modelled (the
occupant identity in `slot_info.ptr` stands for the object constructed in
slot `i`'s storage).  The mutable iterator pointer cache only mirrors
`slots_[i].ptr` and carries no additional information, so it is omitted. -/
structure poly_vector where
  slots : List slot_info
  size : Nat
  can_copy : Bool
  can_move : Bool
deriving DecidableEq, Repr

namespace poly_vector

/-- The `Capacity` template parameter. -/
def capacity (s : poly_vector) : Nat := s.slots.length

/-- `slots_[i]` (indices are always in range where this is used). -/
def slot (s : poly_vector) (i : Nat) : slot_info :=
  s.slots.getD i slot_info.empty

/-- A default-constructed `poly_vector`: all slot records value-initialized,
`size_ = 0`, `can_copy_ = false`, `can_move_ = true`. -/
def init (cap : Nat) : poly_vector where
  slots := List.replicate cap slot_info.empty
  size := 0
  can_copy := false
  can_move := true

/-- The operation tables of the occupied slots among the first `size_`
slots, in index order — the slots `update_capabilities` inspects. -/
def occupiedTables (s : poly_vector) : List type_operations :=
  (s.slots.take s.size).filterMap fun sl =>
    match sl.ptr, sl.ops with
    | some _, some o => some o
    | _, _ => none

/-- The `ptr` fields of slots `[0, size)`: the observable contents of the
container (what indexing and iteration expose). -/
def contents (s : poly_vector) : List (Option Nat) :=
  (s.slots.take s.size).map slot_info.ptr

/-- `update_capabilities()`: recompute `can_copy_`/`can_move_` from the
occupied slots among `[0, size)`
(`can_copy_ = !has_elements || all_copyable`, same for move). -/
def update_capabilities (s : poly_vector) : poly_vector :=
  let occ := s.occupiedTables
  { s with
    can_copy := occ.isEmpty || occ.all fun o => o.is_copy_constructible
    can_move := occ.isEmpty || occ.all fun o => o.is_move_constructible }

/-- `is_copyable()`. -/
def is_copyable (s : poly_vector) : Bool := s.can_copy

/-- `is_movable()`. -/
def is_movable (s : poly_vector) : Bool := s.can_move

/-- `emplace_back<Derived>(args...)` constructing occupant identity `v` of a
type with traits `t`; `ctorOk` says whether the placement constructor
returns normally. -/
def emplace_back (s : poly_vector) (v : Nat) (t : TypeTraits) (ctorOk : Bool) :
    Outcome poly_vector :=
  if s.size ≥ s.capacity then .err .capacityExceeded s
  else
    let ops := type_operations_factory t
    if ¬ctorOk then .err .ctorFailure s
    else
      let s1 : poly_vector :=
        { s with
          slots := s.slots.set s.size ⟨some v, some ops⟩
          size := s.size + 1 }
      .ok s1.update_capabilities

/-- One iteration of the `shift_right` loop, processing source slot `src`
(destination `src + count`). -/
def shiftRightStep (slots : List slot_info) (src count : Nat) :
    Outcome (List slot_info) :=
  match (slots.getD src slot_info.empty).ptr,
        (slots.getD src slot_info.empty).ops with
  | some v, some o =>
    match safe_move_construct o with
    | .failed e => .err e slots
    | _ =>
      .ok (((slots.set (src + count) ⟨some v, some o⟩).set src slot_info.empty))
  | _, _ => .ok slots

/-- `shift_right(start_index, count)`: the loop `for i = size_; i > start;
--i` with `src = i - 1`, `dst = src + count`; `k` is the number of
remaining iterations (`i - start`), so the call processes sources
`start + k - 1, …, start`. -/
def shiftRightAux (start count : Nat) : Nat → List slot_info →
    Outcome (List slot_info)
  | 0, slots => .ok slots
  | k + 1, slots =>
    match shiftRightStep slots (start + k) count with
    | .err e sl => .err e sl
    | .ok sl => shiftRightAux start count k sl

/-- One iteration of the `shift_left` loop, processing source slot `i`
(destination `i - count`). -/
def shiftLeftStep (slots : List slot_info) (i count : Nat) :
    Outcome (List slot_info) :=
  match (slots.getD i slot_info.empty).ptr,
        (slots.getD i slot_info.empty).ops with
  | some v, some o =>
    match safe_move_construct o with
    | .failed e => .err e slots
    | _ =>
      .ok (((slots.set (i - count) ⟨some v, some o⟩).set i slot_info.empty))
  | _, _ => .ok slots

/-- `shift_left(start_index, count)`: the loop `for i = start; i < size_;
++i`; `k` is the number of remaining iterations (`size_ - i`). -/
def shiftLeftAux (count : Nat) : Nat → Nat → List slot_info →
    Outcome (List slot_info)
  | _, 0, slots => .ok slots
  | i, k + 1, slots =>
    match shiftLeftStep slots i count with
    | .err e sl => .err e sl
    | .ok sl => shiftLeftAux count (i + 1) k sl

/-- `emplace<Derived>(pos, args...)` at logical index `i` (the iterator is
`begin() + i`). -/
def emplace_at (s : poly_vector) (i : Nat) (v : Nat) (t : TypeTraits)
    (ctorOk : Bool) : Outcome poly_vector :=
  if i > s.size then .err .outOfRange s
  else if s.size ≥ s.capacity then .err .capacityExceeded s
  else
    match shiftRightAux i 1 (s.size - i) s.slots with
    | .err e sl => .err e { s with slots := sl }
    | .ok sl =>
      let ops := type_operations_factory t
      if ¬ctorOk then .err .ctorFailure { s with slots := sl }
      else
        let s1 : poly_vector :=
          { s with
            slots := sl.set i ⟨some v, some ops⟩
            size := s.size + 1 }
        .ok s1.update_capabilities

/-- `pop_back()`. -/
def pop_back (s : poly_vector) : Outcome poly_vector :=
  if s.size = 0 then .err .outOfRange s
  else
    let s1 : poly_vector :=
      { s with size := s.size - 1, slots := destroySlot s.slots (s.size - 1) }
    .ok s1.update_capabilities

/-- The destruction loop of `erase`: destroy slots `[first, last)`. -/
def destroyRange (slots : List slot_info) (first : Nat) : Nat → List slot_info
  | 0 => slots
  | k + 1 => destroyRange (destroySlot slots first) (first + 1) k

/-- `erase(first, last)` with the iterators given as logical indices. -/
def erase (s : poly_vector) (first last : Nat) : Outcome poly_vector :=
  if first > last ∨ last > s.size then .err .outOfRange s
  else
    let count := last - first
    if count = 0 then .ok s
    else if last < s.size ∧ s.can_move = false then .err .shiftUnsupported s
    else
      let sl1 := destroyRange s.slots first count
      match
        (if last < s.size then shiftLeftAux count last (s.size - last) sl1
         else .ok sl1) with
      | .err e sl => .err e { s with slots := sl }
      | .ok sl =>
        let s1 : poly_vector :=
          { s with slots := sl, size := s.size - count }
        .ok s1.update_capabilities

/-- `clear()`. -/
def clear (s : poly_vector) : poly_vector where
  slots := destroyRange s.slots 0 s.size
  size := 0
  can_copy := false
  can_move := true

/-- One iteration of the shrinking loop of `resize` (a `pop_back()` whose
empty-check cannot fire because `size_ > new_size ≥ 0`). -/
def popBackStep (s : poly_vector) : poly_vector :=
  ({ s with
     size := s.size - 1
     slots := destroySlot s.slots (s.size - 1) } : poly_vector).update_capabilities

/-- The shrinking loop of `resize`, `k` iterations. -/
def shrinkSteps (s : poly_vector) : Nat → poly_vector
  | 0 => s
  | k + 1 => shrinkSteps s.popBackStep k

/-- One iteration of the growing loop of `resize`:
`slots_[size_].ptr = nullptr; ++size_;` (the `ops` field is untouched). -/
def growStep (s : poly_vector) : poly_vector :=
  { s with
    slots := s.slots.set s.size ⟨none, (s.slot s.size).ops⟩
    size := s.size + 1 }

/-- The growing loop of `resize`, `k` iterations. -/
def growSteps (s : poly_vector) : Nat → poly_vector
  | 0 => s
  | k + 1 => growSteps s.growStep k

/-- `resize(new_size)`. -/
def resize (s : poly_vector) (new_size : Nat) : Outcome poly_vector :=
  if new_size > s.capacity then .err .capacityExceeded s
  else
    let s1 := shrinkSteps s (s.size - new_size)
    .ok (growSteps s1 (new_size - s1.size))

/-- `front()`: the returned occupant reference (`slots_[0].ptr`), or the
thrown exception. -/
def front (s : poly_vector) : Except PolyError (Option Nat) :=
  if s.size = 0 then .error .outOfRange
  else .ok (s.slot 0).ptr

/-- `back()`. -/
def back (s : poly_vector) : Except PolyError (Option Nat) :=
  if s.size = 0 then .error .outOfRange
  else .ok (s.slot (s.size - 1)).ptr

end poly_vector

/-- The per-slot loop shared by `poly_array::copy_from` and
`poly_vector::copy_from`: for each source index `i` (ascending, `k`
iterations left), if the source slot is occupied, `safe_copy_construct`
into the destination slot and record `{ptr, ops}`.  A throw from the copy
constructor helper aborts with the destination slots built so far. -/
def copyFromAux (src : List slot_info) : Nat → Nat → List slot_info →
    Outcome (List slot_info)
  | _, 0, dst => .ok dst
  | i, k + 1, dst =>
    match (src.getD i slot_info.empty).ptr,
          (src.getD i slot_info.empty).ops with
    | some v, some o =>
      match safe_copy_construct o with
      | .failed e => .err e dst
      | _ => copyFromAux src (i + 1) k (dst.set i ⟨some v, some o⟩)
    | _, _ => copyFromAux src (i + 1) k dst

/-- The per-slot loop shared by `poly_array::move_from` and
`poly_vector::move_from`: `safe_move_construct` into the destination, then
`other.destroy_at(i)` on the source.  The pair is (destination slots,
source slots). -/
def moveFromAux : Nat → Nat → List slot_info → List slot_info →
    Outcome (List slot_info × List slot_info)
  | _, 0, dst, src => .ok (dst, src)
  | i, k + 1, dst, src =>
    match (src.getD i slot_info.empty).ptr,
          (src.getD i slot_info.empty).ops with
    | some v, some o =>
      match safe_move_construct o with
      | .failed e => .err e (dst, src)
      | _ =>
        moveFromAux (i + 1) k (dst.set i ⟨some v, some o⟩) (destroySlot src i)
    | _, _ => moveFromAux (i + 1) k dst src

namespace poly_vector

/-- `copy_from(other)` run on destination `s` (`size_` is assigned before
the loop, the capability flags after it). -/
def copy_from (s other : poly_vector) : Outcome poly_vector :=
  match copyFromAux other.slots 0 other.size s.slots with
  | .err e sl => .err e { s with size := other.size, slots := sl }
  | .ok sl =>
    .ok { slots := sl, size := other.size
          can_copy := other.can_copy, can_move := other.can_move }

/-- Copy constructor: runtime `can_copy_` gate, then `copy_from` into a
default-initialized object.  On a throw no object exists, so the error
carries no destination state. -/
def copy_ctor (other : poly_vector) : Except PolyError poly_vector :=
  if other.can_copy = false then .error .notCopyable
  else
    match copy_from (init other.capacity) other with
    | .err e _ => .error e
    | .ok s => .ok s

/-- Copy assignment `s = other` for two distinct objects (the
`this != &other` test is true). -/
def copy_assign (s other : poly_vector) : Outcome poly_vector :=
  if other.can_copy = false then .err .notCopyable s
  else copy_from s.clear other

/-- `move_from(std::move(other))` run on destination `s`: assigns `size_`,
relocates each occupied source slot and destroys it, copies the capability
flags and zeroes the source's `size_`.  The function is `noexcept` in C++;
a relocation failure (which would terminate the process) is modelled as an
error outcome carrying both partial states. -/
def move_from (s other : poly_vector) : Outcome (poly_vector × poly_vector) :=
  match moveFromAux 0 other.size s.slots other.slots with
  | .err e (d, o2) =>
    .err e ({ s with size := other.size, slots := d }, { other with slots := o2 })
  | .ok (d, o2) =>
    .ok ({ slots := d, size := other.size
           can_copy := other.can_copy, can_move := other.can_move },
         { other with slots := o2, size := 0 })

/-- Move constructor. -/
def move_ctor (other : poly_vector) : Outcome (poly_vector × poly_vector) :=
  move_from (init other.capacity) other

/-- Move assignment `s = std::move(other)` for two distinct objects:
`clear()` then `move_from`. -/
def move_assign (s other : poly_vector) : Outcome (poly_vector × poly_vector) :=
  move_from s.clear other

end poly_vector

-- =========================================================================
-- poly_array
-- =========================================================================

/-- State of a `poly_array<Base, N, ...>`; `slots.length` is the `N`
template parameter.  As for `poly_vector`, raw storage and the mutable
pointer cache are not modelled. -/
structure poly_array where
  slots : List slot_info
  can_copy : Bool
  can_move : Bool
deriving DecidableEq, Repr

namespace poly_array

/-- The `N` template parameter. -/
def N (a : poly_array) : Nat := a.slots.length

/-- `slots_[i]`. -/
def slot (a : poly_array) (i : Nat) : slot_info :=
  a.slots.getD i slot_info.empty

/-- A default-constructed `poly_array`. -/
def init (n : Nat) : poly_array where
  slots := List.replicate n slot_info.empty
  can_copy := false
  can_move := true

/-- The operation tables of the occupied slots (all `N` are inspected). -/
def occupiedTables (a : poly_array) : List type_operations :=
  a.slots.filterMap fun sl =>
    match sl.ptr, sl.ops with
    | some _, some o => some o
    | _, _ => none

/-- The `ptr` fields of all `N` slots, in order — what iteration exposes. -/
def contents (a : poly_array) : List (Option Nat) :=
  a.slots.map slot_info.ptr

/-- `update_capabilities()`. -/
def update_capabilities (a : poly_array) : poly_array :=
  let occ := a.occupiedTables
  { a with
    can_copy := occ.isEmpty || occ.all fun o => o.is_copy_constructible
    can_move := occ.isEmpty || occ.all fun o => o.is_move_constructible }

/-- `is_copyable()`. -/
def is_copyable (a : poly_array) : Bool := a.can_copy

/-- `is_movable()`. -/
def is_movable (a : poly_array) : Bool := a.can_move

/-- `emplace<Derived>(index, args...)`: bounds check, destroy any existing
occupant, then placement-construct (the constructor may throw, after the
old occupant is already gone). -/
def emplace (a : poly_array) (index : Nat) (v : Nat) (t : TypeTraits)
    (ctorOk : Bool) : Outcome poly_array :=
  if index ≥ a.N then .err .outOfRange a
  else
    let a1 : poly_array := { a with slots := destroySlot a.slots index }
    let ops := type_operations_factory t
    if ¬ctorOk then .err .ctorFailure a1
    else
      .ok ({ a1 with
             slots := a1.slots.set index ⟨some v, some ops⟩ } : poly_array).update_capabilities

/-- `clear()`. -/
def clear (a : poly_array) : poly_array where
  slots := InlinePoly.poly_vector.destroyRange a.slots 0 a.N
  can_copy := false
  can_move := true

/-- `at(index)` (checked access): returned occupant pointer or thrown
exception. -/
def checked_at (a : poly_array) (index : Nat) : Except PolyError (Option Nat) :=
  if index ≥ a.N then .error .outOfRange
  else .ok (a.slot index).ptr

/-- `copy_from(other)` run on destination `a`. -/
def copy_from (a other : poly_array) : Outcome poly_array :=
  match copyFromAux other.slots 0 other.N a.slots with
  | .err e sl => .err e { a with slots := sl }
  | .ok sl =>
    .ok { slots := sl, can_copy := other.can_copy, can_move := other.can_move }

/-- Copy constructor: runtime `can_copy_` gate, then `copy_from`. -/
def copy_ctor (other : poly_array) : Except PolyError poly_array :=
  if other.can_copy = false then .error .notCopyable
  else
    match copy_from (init other.N) other with
    | .err e _ => .error e
    | .ok a => .ok a

/-- Copy assignment for two distinct objects. -/
def copy_assign (a other : poly_array) : Outcome poly_array :=
  if other.can_copy = false then .err .notCopyable a
  else copy_from a.clear other

/-- `move_from(std::move(other))` run on destination `a`. -/
def move_from (a other : poly_array) : Outcome (poly_array × poly_array) :=
  match moveFromAux 0 other.N a.slots other.slots with
  | .err e (d, o2) =>
    .err e ({ a with slots := d }, { other with slots := o2 })
  | .ok (d, o2) =>
    .ok ({ slots := d, can_copy := other.can_copy, can_move := other.can_move },
         { other with slots := o2 })

/-- Move constructor. -/
def move_ctor (other : poly_array) : Outcome (poly_array × poly_array) :=
  move_from (init other.N) other

/-- Move assignment for two distinct objects: `clear()` then `move_from`. -/
def move_assign (a other : poly_array) : Outcome (poly_array × poly_array) :=
  move_from a.clear other

end poly_array

-- =========================================================================
-- Concrete fixtures used by witnesses and counterexamples
-- =========================================================================

/-- Traits of a trivially copyable type (movable and copyable). -/
def tTriv : TypeTraits := ⟨8, 8, true, true, true, true, true⟩

/-- Traits of a movable but non-copyable type (e.g. holding a
`std::unique_ptr`-like member). -/
def tNoCopy : TypeTraits := ⟨8, 8, false, false, true, true, false⟩

/-- Traits of a copy-constructible type whose move constructor is deleted
(copyable but not movable, not trivially copyable). -/
def tCopyOnly : TypeTraits := ⟨8, 8, false, true, false, false, true⟩

/-- Traits of a type that is neither movable nor copyable. -/
def tImmov : TypeTraits := ⟨8, 8, false, false, false, false, false⟩

-- =========================================================================
-- Generic list access toolbox (getD-level pointwise reasoning)
-- =========================================================================

section ListToolbox

variable {α β : Type} (d : α)

lemma getD_of_le {l : List α} {i : Nat} (h : l.length ≤ i) : l.getD i d = d := by
  simp [List.getD, List.getElem?_eq_none h]

lemma getD_set_self {l : List α} {i : Nat} (a : α) (h : i < l.length) :
    (l.set i a).getD i d = a := by
  simp [List.getD, List.getElem?_set_self, h]

lemma getD_set_ne {l : List α} {i j : Nat} (a : α) (h : i ≠ j) :
    (l.set i a).getD j d = l.getD j d := by
  simp [List.getD, List.getElem?_set_ne h]

lemma getD_take_lt {l : List α} {n j : Nat} (h : j < n) :
    (l.take n).getD j d = l.getD j d := by
  simp [List.getD, List.getElem?_take, h]

lemma getD_drop (l : List α) (k m : Nat) :
    (l.drop k).getD m d = l.getD (k + m) d := by
  simp [List.getD]

lemma getD_append_left {l1 l2 : List α} {j : Nat} (h : j < l1.length) :
    (l1 ++ l2).getD j d = l1.getD j d := by
  simp [List.getD, List.getElem?_append, h]

lemma getD_append_right {l1 l2 : List α} {j : Nat} (h : l1.length ≤ j) :
    (l1 ++ l2).getD j d = l2.getD (j - l1.length) d := by
  simp [List.getD, List.getElem?_append, Nat.not_lt.mpr h]

lemma getD_map (f : α → β) (d' : β) {l : List α} {j : Nat} (h : j < l.length) :
    (l.map f).getD j d' = f (l.getD j d) := by
  simp [List.getD, List.getElem?_map, List.getElem?_eq_getElem h]

lemma extGetD {l1 l2 : List α} (hlen : l1.length = l2.length)
    (h : ∀ i, i < l1.length → l1.getD i d = l2.getD i d) : l1 = l2 := by
  refine List.ext_getElem hlen fun i h1 h2 => ?_
  have := h i h1
  rwa [List.getD_eq_getElem l1 d h1, List.getD_eq_getElem l2 d h2] at this

lemma getD_replicate {n j : Nat} :
    (List.replicate n d).getD j d = d := by
  simp [List.getD]

end ListToolbox

-- =========================================================================
-- Slot predicates and loop characterizations
-- =========================================================================

/-- `safe_move_construct` succeeds on the slot's occupant (trivially true
for a slot the shift loops skip). -/
def slotMoveOk (sl : slot_info) : Bool :=
  match sl.ptr, sl.ops with
  | some _, some o => (safe_move_construct o).isOk
  | _, _ => true

/-- `safe_copy_construct` succeeds on the slot's occupant. -/
def slotCopyOk (sl : slot_info) : Bool :=
  match sl.ptr, sl.ops with
  | some _, some o => (safe_copy_construct o).isOk
  | _, _ => true

/-- A slot record is either genuinely occupied or fully value-initialized —
the shape every slot record has in code paths that do not throw from a
user constructor. -/
def slot_info.clean (sl : slot_info) : Prop :=
  sl.occupied = true ∨ sl = slot_info.empty

instance (sl : slot_info) : Decidable sl.clean := by
  unfold slot_info.clean; infer_instance

lemma occupied_iff (sl : slot_info) :
    sl.occupied = true ↔ ∃ v o, sl.ptr = some v ∧ sl.ops = some o := by
  obtain ⟨p, o⟩ := sl
  cases p <;> cases o <;> simp [slot_info.occupied]

lemma destroySlot_length (slots : List slot_info) (i : Nat) :
    (destroySlot slots i).length = slots.length := by
  unfold destroySlot; split <;> simp

lemma destroySlot_getD_ne (slots : List slot_info) {i j : Nat} (h : i ≠ j) :
    (destroySlot slots i).getD j slot_info.empty =
      slots.getD j slot_info.empty := by
  unfold destroySlot; split
  · exact getD_set_ne _ _ h
  · rfl

lemma destroySlot_getD_self (slots : List slot_info) {i : Nat} :
    (destroySlot slots i).getD i slot_info.empty =
      if (slots.getD i slot_info.empty).occupied then slot_info.empty
      else slots.getD i slot_info.empty := by
  unfold destroySlot; split
  · rename_i h
    rcases Nat.lt_or_ge i slots.length with hlt | hge
    · exact getD_set_self _ _ hlt
    · rw [getD_of_le _ hge] at h
      simp [slot_info.empty, slot_info.occupied] at h
  · rfl

lemma destroyRange_length (slots : List slot_info) (first k : Nat) :
    (poly_vector.destroyRange slots first k).length = slots.length := by
  induction k generalizing slots first with
  | zero => rfl
  | succ k ih =>
    rw [poly_vector.destroyRange, ih, destroySlot_length]

lemma destroyRange_getD (k : Nat) :
    ∀ (first : Nat) (slots : List slot_info) (j : Nat),
      (poly_vector.destroyRange slots first k).getD j slot_info.empty =
        if first ≤ j ∧ j < first + k ∧ (slots.getD j slot_info.empty).occupied
        then slot_info.empty else slots.getD j slot_info.empty := by
  induction k with
  | zero =>
    intro first slots j
    rw [poly_vector.destroyRange]
    have : ¬(first ≤ j ∧ j < first + 0 ∧
        (slots.getD j slot_info.empty).occupied = true) := by omega
    rw [if_neg this]
  | succ k ih =>
    intro first slots j
    rw [poly_vector.destroyRange, ih]
    by_cases heq : first = j
    · subst heq
      rw [destroySlot_getD_self]
      by_cases hocc : (slots.getD first slot_info.empty).occupied = true
      · rw [if_pos hocc,
          if_neg (fun hc => by omega : ¬(first + 1 ≤ first ∧ first < first + 1 + k ∧
            (slot_info.empty).occupied = true)),
          if_pos (⟨le_refl _, by omega, hocc⟩ : first ≤ first ∧
            first < first + (k + 1) ∧ _)]
      · rw [if_neg hocc,
          if_neg (fun hc => by omega : ¬(first + 1 ≤ first ∧ first < first + 1 + k ∧
            (slots.getD first slot_info.empty).occupied = true)),
          if_neg (fun hc => hocc hc.2.2)]
    · rw [destroySlot_getD_ne _ heq]
      by_cases hj : first + 1 ≤ j ∧ j < first + 1 + k ∧
          (slots.getD j slot_info.empty).occupied = true
      · rw [if_pos hj, if_pos (⟨by omega, by omega, hj.2.2⟩ : first ≤ j ∧
          j < first + (k + 1) ∧ _)]
      · rw [if_neg hj, if_neg (fun hc => hj ⟨by omega, by omega, hc.2.2⟩)]

/-- Characterization of the `shift_right` loop with `count = 1` (the only
count the header uses): when every source slot in `[start, start + k)` is
occupied and relocatable, the loop succeeds, moves slot `j - 1` to `j` for
`j ∈ (start, start + k]`, empties slot `start`, and touches nothing else. -/
lemma shiftRightAux_one_spec (k : Nat) :
    ∀ (start : Nat) (slots : List slot_info),
      start + k + 1 ≤ slots.length →
      (∀ j, start ≤ j → j < start + k →
        (slots.getD j slot_info.empty).occupied = true ∧
        slotMoveOk (slots.getD j slot_info.empty) = true) →
      ∃ out, poly_vector.shiftRightAux start 1 k slots = .ok out ∧
        out.length = slots.length ∧
        (∀ j, j < start ∨ start + k < j →
          out.getD j slot_info.empty = slots.getD j slot_info.empty) ∧
        (∀ j, start < j → j ≤ start + k →
          out.getD j slot_info.empty = slots.getD (j - 1) slot_info.empty) ∧
        (0 < k → out.getD start slot_info.empty = slot_info.empty) := by
  induction k with
  | zero =>
    intro start slots _ _
    exact ⟨slots, rfl, rfl, fun j _ => rfl, fun j h1 h2 => by omega,
      fun h => by omega⟩
  | succ k ih =>
    intro start slots hlen hocc
    have hsrc := hocc (start + k) (by omega) (by omega)
    obtain ⟨v, o, hp, ho⟩ := (occupied_iff _).mp hsrc.1
    have hmv : (safe_move_construct o).isOk = true := by
      have h2 := hsrc.2
      rw [slotMoveOk, hp, ho] at h2
      exact h2
    have hrec : slots.getD (start + k) slot_info.empty = ⟨some v, some o⟩ := by
      have h1 := hp; have h2 := ho
      cases hsl : slots.getD (start + k) slot_info.empty with
      | mk p q =>
        rw [hsl] at h1 h2
        have hq1 : p = some v := h1
        have hq2 : q = some o := h2
        rw [hq1, hq2]
    set slots1 : List slot_info :=
      (slots.set (start + k + 1) ⟨some v, some o⟩).set (start + k)
        slot_info.empty with hslots1
    have hstep : poly_vector.shiftRightAux start 1 (k + 1) slots =
        poly_vector.shiftRightAux start 1 k slots1 := by
      have hred : poly_vector.shiftRightStep slots (start + k) 1 = .ok slots1 := by
        simp only [poly_vector.shiftRightStep, hp, ho]
        cases hsm : safe_move_construct o with
        | failed e => rw [hsm] at hmv; simp [RelocChoice.isOk] at hmv
        | memcpyBytes n => rfl
        | moveCtor => rfl
        | copyCtor => rfl
      rw [poly_vector.shiftRightAux, hred]
    have hlen1 : slots1.length = slots.length := by
      rw [hslots1, List.length_set, List.length_set]
    have hsame1 : ∀ j, j ≠ start + k → j ≠ start + k + 1 →
        slots1.getD j slot_info.empty = slots.getD j slot_info.empty := by
      intro j h1 h2
      rw [hslots1, getD_set_ne _ _ (fun h => h1 h.symm),
        getD_set_ne _ _ (fun h => h2 h.symm)]
    obtain ⟨out, hout, holen, hlow, hmid, hstart⟩ :=
      ih start slots1 (by omega) (by
        intro j hj1 hj2
        rw [hsame1 j (by omega) (by omega)]
        exact hocc j hj1 (by omega))
    refine ⟨out, by rw [hstep]; exact hout, by rw [holen, hlen1], ?_, ?_, ?_⟩
    · intro j hj
      rcases hj with hj | hj
      · rw [hlow j (Or.inl hj), hsame1 j (by omega) (by omega)]
      · rw [hlow j (Or.inr (by omega)), hsame1 j (by omega) (by omega)]
    · intro j hj1 hj2
      rcases Nat.lt_or_ge j (start + k + 1) with hj3 | hj3
      · rw [hmid j hj1 (by omega), hsame1 (j - 1) (by omega) (by omega)]
      · have hj4 : j = start + k + 1 := by omega
        subst hj4
        rw [hlow _ (Or.inr (by omega)), hslots1,
          getD_set_ne _ _ (by omega : start + k ≠ start + k + 1),
          getD_set_self _ _ (by omega)]
        have he : start + k + 1 - 1 = start + k := by omega
        rw [he, hrec]
    · intro _
      rcases Nat.eq_zero_or_pos k with hk | hk
      · subst hk
        have hinj : Outcome.ok (σ := List slot_info) slots1 = .ok out := hout
        have ho2 : slots1 = out := by injection hinj
        rw [← ho2, hslots1]
        exact getD_set_self _ _ (by rw [List.length_set]; omega)
      · rw [hstart hk]

/-- Characterization of the `shift_left` loop: when every source slot in
`[i, i + k)` is occupied and relocatable (and `count ≤ i`, as in `erase`),
the loop succeeds, writes `slots[j + count]` into slot `j` for
`j ∈ [i - count, i + k - count)`, empties the slots of
`[max i (i + k - count), i + k)`, and touches nothing else. -/
lemma shiftLeftAux_spec (count : Nat) (hcount : 0 < count) (k : Nat) :
    ∀ (i : Nat) (slots : List slot_info),
      count ≤ i → i + k ≤ slots.length →
      (∀ j, i ≤ j → j < i + k →
        (slots.getD j slot_info.empty).occupied = true ∧
        slotMoveOk (slots.getD j slot_info.empty) = true) →
      ∃ out, poly_vector.shiftLeftAux count i k slots = .ok out ∧
        out.length = slots.length ∧
        (∀ j, j < i - count ∨ (i + k - count ≤ j ∧ j < i) ∨ i + k ≤ j →
          out.getD j slot_info.empty = slots.getD j slot_info.empty) ∧
        (∀ j, i - count ≤ j → j < i + k - count →
          out.getD j slot_info.empty = slots.getD (j + count) slot_info.empty) ∧
        (∀ j, i ≤ j → j < i + k → i + k - count ≤ j →
          out.getD j slot_info.empty = slot_info.empty) := by
  induction k with
  | zero =>
    intro i slots _ _ _
    exact ⟨slots, rfl, rfl, fun j _ => rfl, fun j h1 h2 => by omega,
      fun j h1 h2 _ => by omega⟩
  | succ k ih =>
    intro i slots hci hlen hocc
    have hsrc := hocc i (le_refl i) (by omega)
    obtain ⟨v, o, hp, ho⟩ := (occupied_iff _).mp hsrc.1
    have hmv : (safe_move_construct o).isOk = true := by
      have h2 := hsrc.2
      rw [slotMoveOk, hp, ho] at h2
      exact h2
    have hrec : slots.getD i slot_info.empty = ⟨some v, some o⟩ := by
      have h1 := hp; have h2 := ho
      cases hsl : slots.getD i slot_info.empty with
      | mk p q =>
        rw [hsl] at h1 h2
        have hq1 : p = some v := h1
        have hq2 : q = some o := h2
        rw [hq1, hq2]
    set slots1 : List slot_info :=
      (slots.set (i - count) ⟨some v, some o⟩).set i slot_info.empty
      with hslots1
    have hstep : poly_vector.shiftLeftAux count i (k + 1) slots =
        poly_vector.shiftLeftAux count (i + 1) k slots1 := by
      have hred : poly_vector.shiftLeftStep slots i count = .ok slots1 := by
        simp only [poly_vector.shiftLeftStep, hp, ho]
        cases hsm : safe_move_construct o with
        | failed e => rw [hsm] at hmv; simp [RelocChoice.isOk] at hmv
        | memcpyBytes n => rfl
        | moveCtor => rfl
        | copyCtor => rfl
      rw [poly_vector.shiftLeftAux, hred]
    have hlen1 : slots1.length = slots.length := by
      rw [hslots1, List.length_set, List.length_set]
    have hsame1 : ∀ j, j ≠ i - count → j ≠ i →
        slots1.getD j slot_info.empty = slots.getD j slot_info.empty := by
      intro j h1 h2
      rw [hslots1, getD_set_ne _ _ (fun h => h2 h.symm),
        getD_set_ne _ _ (fun h => h1 h.symm)]
    obtain ⟨out, hout, holen, hU, hW, hC⟩ :=
      ih (i + 1) slots1 (by omega) (by omega) (by
        intro j hj1 hj2
        rw [hsame1 j (by omega) (by omega)]
        exact hocc j (by omega) (by omega))
    refine ⟨out, by rw [hstep]; exact hout, by rw [holen, hlen1], ?_, ?_, ?_⟩
    · intro j hj
      rcases hj with hj | ⟨hj1, hj2⟩ | hj
      · rw [hU j (Or.inl (by omega)), hsame1 j (by omega) (by omega)]
      · rw [hU j (Or.inr (Or.inl ⟨by omega, by omega⟩)),
          hsame1 j (by omega) (by omega)]
      · rw [hU j (Or.inr (Or.inr (by omega))), hsame1 j (by omega) (by omega)]
    · intro j hj1 hj2
      rcases Nat.lt_or_ge (i - count) j with hj3 | hj3
      · rw [hW j (by omega) (by omega), hsame1 (j + count) (by omega) (by omega)]
      · have hj4 : j = i - count := by omega
        subst hj4
        rw [hU _ (Or.inl (by omega)), hslots1,
          getD_set_ne _ _ (by omega : i ≠ i - count),
          getD_set_self _ _ (by omega)]
        have he : i - count + count = i := by omega
        rw [he, hrec]
    · intro j hj1 hj2 hj3
      rcases Nat.lt_or_ge i j with hj4 | hj4
      · exact hC j (by omega) (by omega) (by omega)
      · have hj5 : j = i := by omega
        subst hj5
        rw [hU _ (Or.inr (Or.inl ⟨by omega, by omega⟩)), hslots1]
        exact getD_set_self _ _ (by rw [List.length_set]; omega)

lemma not_true_of_eq_false {b : Bool} (h : b = false) : ¬b = true :=
  fun hc => by rw [h] at hc; cases hc

/-- Characterization of the `copy_from` loop: when `safe_copy_construct`
succeeds on every occupied source slot of `[i, i + k)`, the loop succeeds,
copies each occupied source record into the destination slot of the same
index, and leaves the other destination slots as they were. -/
lemma copyFromAux_spec (src : List slot_info) (k : Nat) :
    ∀ (i : Nat) (dst : List slot_info),
      i + k ≤ dst.length →
      (∀ j, i ≤ j → j < i + k → slotCopyOk (src.getD j slot_info.empty) = true) →
      ∃ out, copyFromAux src i k dst = .ok out ∧
        out.length = dst.length ∧
        (∀ j, j < i ∨ i + k ≤ j →
          out.getD j slot_info.empty = dst.getD j slot_info.empty) ∧
        (∀ j, i ≤ j → j < i + k →
          out.getD j slot_info.empty =
            if (src.getD j slot_info.empty).occupied then
              src.getD j slot_info.empty
            else dst.getD j slot_info.empty) := by
  induction k with
  | zero =>
    intro i dst _ _
    exact ⟨dst, rfl, rfl, fun j _ => rfl, fun j h1 h2 => by omega⟩
  | succ k ih =>
    intro i dst hlen hok
    cases hp : (src.getD i slot_info.empty).ptr with
    | none =>
      have hstep : copyFromAux src i (k + 1) dst =
          copyFromAux src (i + 1) k dst := by
        simp only [copyFromAux, hp]
      obtain ⟨out, hout, holen, hlow, hmid⟩ :=
        ih (i + 1) dst (by omega) (fun j h1 h2 => hok j (by omega) (by omega))
      refine ⟨out, by rw [hstep]; exact hout, holen, ?_, ?_⟩
      · intro j hj
        rcases hj with hj | hj
        · exact hlow j (Or.inl (by omega))
        · exact hlow j (Or.inr (by omega))
      · intro j hj1 hj2
        rcases Nat.lt_or_ge i j with hj3 | hj3
        · exact hmid j (by omega) (by omega)
        · have hj4 : j = i := by omega
          subst hj4
          have hno : (src.getD j slot_info.empty).occupied = false := by
            unfold slot_info.occupied; rw [hp]; rfl
          rw [hlow j (Or.inl (by omega)), if_neg (not_true_of_eq_false hno)]
    | some v =>
      cases ho : (src.getD i slot_info.empty).ops with
      | none =>
        have hstep : copyFromAux src i (k + 1) dst =
            copyFromAux src (i + 1) k dst := by
          simp only [copyFromAux, hp, ho]
        obtain ⟨out, hout, holen, hlow, hmid⟩ :=
          ih (i + 1) dst (by omega) (fun j h1 h2 => hok j (by omega) (by omega))
        refine ⟨out, by rw [hstep]; exact hout, holen, ?_, ?_⟩
        · intro j hj
          rcases hj with hj | hj
          · exact hlow j (Or.inl (by omega))
          · exact hlow j (Or.inr (by omega))
        · intro j hj1 hj2
          rcases Nat.lt_or_ge i j with hj3 | hj3
          · exact hmid j (by omega) (by omega)
          · have hj4 : j = i := by omega
            subst hj4
            have hno : (src.getD j slot_info.empty).occupied = false := by
              unfold slot_info.occupied; rw [hp, ho]; rfl
            rw [hlow j (Or.inl (by omega)), if_neg (not_true_of_eq_false hno)]
      | some o =>
        have hcok : (safe_copy_construct o).isOk = true := by
          have h2 := hok i (le_refl i) (by omega)
          rw [slotCopyOk, hp, ho] at h2
          exact h2
        have hrec : src.getD i slot_info.empty = ⟨some v, some o⟩ := by
          have h1 := hp; have h2 := ho
          cases hsl : src.getD i slot_info.empty with
          | mk p q =>
            rw [hsl] at h1 h2
            have hq1 : p = some v := h1
            have hq2 : q = some o := h2
            rw [hq1, hq2]
        have hocc : (src.getD i slot_info.empty).occupied = true := by
          rw [occupied_iff]; exact ⟨v, o, hp, ho⟩
        set dst1 : List slot_info := dst.set i ⟨some v, some o⟩ with hdst1
        have hstep : copyFromAux src i (k + 1) dst =
            copyFromAux src (i + 1) k dst1 := by
          simp only [copyFromAux, hp, ho]
          cases hsm : safe_copy_construct o with
          | failed e => rw [hsm] at hcok; simp [RelocChoice.isOk] at hcok
          | memcpyBytes n => rfl
          | moveCtor => rfl
          | copyCtor => rfl
        obtain ⟨out, hout, holen, hlow, hmid⟩ :=
          ih (i + 1) dst1 (by rw [hdst1, List.length_set]; omega)
            (fun j h1 h2 => hok j (by omega) (by omega))
        refine ⟨out, by rw [hstep]; exact hout,
          by rw [holen, hdst1, List.length_set], ?_, ?_⟩
        · intro j hj
          rcases hj with hj | hj
          · rw [hlow j (Or.inl (by omega)), hdst1,
              getD_set_ne _ _ (by omega : i ≠ j)]
          · rw [hlow j (Or.inr (by omega)), hdst1,
              getD_set_ne _ _ (by omega : i ≠ j)]
        · intro j hj1 hj2
          rcases Nat.lt_or_ge i j with hj3 | hj3
          · rw [hmid j (by omega) (by omega), hdst1]
            by_cases hjo : (src.getD j slot_info.empty).occupied = true
            · rw [if_pos hjo, if_pos hjo]
            · rw [if_neg hjo, if_neg hjo, getD_set_ne _ _ (by omega : i ≠ j)]
          · have hj4 : j = i := by omega
            subst hj4
            rw [hlow j (Or.inl (by omega)), if_pos hocc, hdst1,
              getD_set_self _ _ (by omega), hrec]

/-- Characterization of the `move_from` loop: when `safe_move_construct`
succeeds on every occupied source slot of `[i, i + k)`, the loop succeeds;
each occupied source record is relocated into the destination slot of the
same index and the source slot is destroyed (`other.destroy_at(i)`);
skipped slots are untouched on both sides. -/
lemma moveFromAux_spec (k : Nat) :
    ∀ (i : Nat) (dst src : List slot_info),
      i + k ≤ dst.length →
      (∀ j, i ≤ j → j < i + k → slotMoveOk (src.getD j slot_info.empty) = true) →
      ∃ d s2, moveFromAux i k dst src = .ok (d, s2) ∧
        d.length = dst.length ∧ s2.length = src.length ∧
        (∀ j, j < i ∨ i + k ≤ j →
          d.getD j slot_info.empty = dst.getD j slot_info.empty ∧
          s2.getD j slot_info.empty = src.getD j slot_info.empty) ∧
        (∀ j, i ≤ j → j < i + k →
          (d.getD j slot_info.empty =
            if (src.getD j slot_info.empty).occupied then
              src.getD j slot_info.empty
            else dst.getD j slot_info.empty) ∧
          (s2.getD j slot_info.empty =
            if (src.getD j slot_info.empty).occupied then slot_info.empty
            else src.getD j slot_info.empty)) := by
  induction k with
  | zero =>
    intro i dst src _ _
    exact ⟨dst, src, rfl, rfl, rfl, fun j _ => ⟨rfl, rfl⟩,
      fun j h1 h2 => by omega⟩
  | succ k ih =>
    intro i dst src hlen hok
    cases hp : (src.getD i slot_info.empty).ptr with
    | none =>
      have hstep : moveFromAux i (k + 1) dst src =
          moveFromAux (i + 1) k dst src := by
        simp only [moveFromAux, hp]
      obtain ⟨d, s2, hout, hdlen, hslen, hlow, hmid⟩ :=
        ih (i + 1) dst src (by omega)
          (fun j h1 h2 => hok j (by omega) (by omega))
      refine ⟨d, s2, by rw [hstep]; exact hout, hdlen, hslen, ?_, ?_⟩
      · intro j hj
        rcases hj with hj | hj
        · exact hlow j (Or.inl (by omega))
        · exact hlow j (Or.inr (by omega))
      · intro j hj1 hj2
        rcases Nat.lt_or_ge i j with hj3 | hj3
        · exact hmid j (by omega) (by omega)
        · have hj4 : j = i := by omega
          subst hj4
          have hno : (src.getD j slot_info.empty).occupied = false := by
            unfold slot_info.occupied; rw [hp]; rfl
          exact ⟨by rw [(hlow j (Or.inl (by omega))).1, if_neg (not_true_of_eq_false hno)],
            by rw [(hlow j (Or.inl (by omega))).2, if_neg (not_true_of_eq_false hno)]⟩
    | some v =>
      cases ho : (src.getD i slot_info.empty).ops with
      | none =>
        have hstep : moveFromAux i (k + 1) dst src =
            moveFromAux (i + 1) k dst src := by
          simp only [moveFromAux, hp, ho]
        obtain ⟨d, s2, hout, hdlen, hslen, hlow, hmid⟩ :=
          ih (i + 1) dst src (by omega)
            (fun j h1 h2 => hok j (by omega) (by omega))
        refine ⟨d, s2, by rw [hstep]; exact hout, hdlen, hslen, ?_, ?_⟩
        · intro j hj
          rcases hj with hj | hj
          · exact hlow j (Or.inl (by omega))
          · exact hlow j (Or.inr (by omega))
        · intro j hj1 hj2
          rcases Nat.lt_or_ge i j with hj3 | hj3
          · exact hmid j (by omega) (by omega)
          · have hj4 : j = i := by omega
            subst hj4
            have hno : (src.getD j slot_info.empty).occupied = false := by
              unfold slot_info.occupied; rw [hp, ho]; rfl
            exact ⟨by rw [(hlow j (Or.inl (by omega))).1, if_neg (not_true_of_eq_false hno)],
              by rw [(hlow j (Or.inl (by omega))).2, if_neg (not_true_of_eq_false hno)]⟩
      | some o =>
        have hmok : (safe_move_construct o).isOk = true := by
          have h2 := hok i (le_refl i) (by omega)
          rw [slotMoveOk, hp, ho] at h2
          exact h2
        have hrec : src.getD i slot_info.empty = ⟨some v, some o⟩ := by
          have h1 := hp; have h2 := ho
          cases hsl : src.getD i slot_info.empty with
          | mk p q =>
            rw [hsl] at h1 h2
            have hq1 : p = some v := h1
            have hq2 : q = some o := h2
            rw [hq1, hq2]
        have hocc : (src.getD i slot_info.empty).occupied = true := by
          rw [occupied_iff]; exact ⟨v, o, hp, ho⟩
        set dst1 : List slot_info := dst.set i ⟨some v, some o⟩ with hdst1
        set src1 : List slot_info := destroySlot src i with hsrc1
        have hstep : moveFromAux i (k + 1) dst src =
            moveFromAux (i + 1) k dst1 src1 := by
          simp only [moveFromAux, hp, ho]
          cases hsm : safe_move_construct o with
          | failed e => rw [hsm] at hmok; simp [RelocChoice.isOk] at hmok
          | memcpyBytes n => rfl
          | moveCtor => rfl
          | copyCtor => rfl
        have hsrc1i : src1.getD i slot_info.empty = slot_info.empty := by
          rw [hsrc1, destroySlot_getD_self, if_pos hocc]
        have hsrc1ne : ∀ j, j ≠ i →
            src1.getD j slot_info.empty = src.getD j slot_info.empty := by
          intro j hj
          rw [hsrc1, destroySlot_getD_ne _ (fun h => hj h.symm)]
        obtain ⟨d, s2, hout, hdlen, hslen, hlow, hmid⟩ :=
          ih (i + 1) dst1 src1 (by rw [hdst1, List.length_set]; omega)
            (by
              intro j h1 h2
              rw [hsrc1ne j (by omega)]
              exact hok j (by omega) (by omega))
        refine ⟨d, s2, by rw [hstep]; exact hout,
          by rw [hdlen, hdst1, List.length_set],
          by rw [hslen, hsrc1, destroySlot_length], ?_, ?_⟩
        · intro j hj
          have hne : i ≠ j := by rcases hj with hj | hj <;> omega
          rcases hj with hj | hj
          · refine ⟨?_, ?_⟩
            · rw [(hlow j (Or.inl (by omega))).1, hdst1, getD_set_ne _ _ hne]
            · rw [(hlow j (Or.inl (by omega))).2, hsrc1ne j (fun h => hne h.symm)]
          · refine ⟨?_, ?_⟩
            · rw [(hlow j (Or.inr (by omega))).1, hdst1, getD_set_ne _ _ hne]
            · rw [(hlow j (Or.inr (by omega))).2, hsrc1ne j (fun h => hne h.symm)]
        · intro j hj1 hj2
          rcases Nat.lt_or_ge i j with hj3 | hj3
          · obtain ⟨hd1, hs1⟩ := hmid j (by omega) (by omega)
            rw [hsrc1ne j (by omega)] at hd1 hs1
            refine ⟨?_, ?_⟩
            · rw [hd1]
              by_cases hjo : (src.getD j slot_info.empty).occupied = true
              · rw [if_pos hjo, if_pos hjo]
              · rw [if_neg hjo, if_neg hjo, hdst1,
                  getD_set_ne _ _ (by omega : i ≠ j)]
            · rw [hs1]
          · have hj4 : j = i := by omega
            subst hj4
            refine ⟨?_, ?_⟩
            · rw [(hlow j (Or.inl (by omega))).1, if_pos hocc, hdst1,
                getD_set_self _ _ (by omega), hrec]
            · rw [(hlow j (Or.inl (by omega))).2, if_pos hocc, hsrc1i]

-- =========================================================================
-- Capability-flag and inversion lemmas
-- =========================================================================

lemma update_capabilities_can_copy (s : poly_vector) :
    s.update_capabilities.can_copy =
      (s.occupiedTables.all fun o => o.is_copy_constructible) := by
  unfold poly_vector.update_capabilities
  cases h : s.occupiedTables <;> simp [h]

lemma update_capabilities_can_move (s : poly_vector) :
    s.update_capabilities.can_move =
      (s.occupiedTables.all fun o => o.is_move_constructible) := by
  unfold poly_vector.update_capabilities
  cases h : s.occupiedTables <;> simp [h]

lemma update_capabilities_slots (s : poly_vector) :
    s.update_capabilities.slots = s.slots := rfl

lemma update_capabilities_size (s : poly_vector) :
    s.update_capabilities.size = s.size := rfl

lemma update_capabilities_occupiedTables (s : poly_vector) :
    s.update_capabilities.occupiedTables = s.occupiedTables := rfl

/-- Every successful `emplace_back` passes the capacity check and ends in
`update_capabilities` on the state with the new record at slot `size_`. -/
lemma emplace_back_ok_inv {s s' : poly_vector} {v : Nat} {t : TypeTraits}
    (h : s.emplace_back v t true = .ok s') :
    s.size < s.capacity ∧
    s' = ({ s with
        slots := s.slots.set s.size ⟨some v, some (type_operations_factory t)⟩
        size := s.size + 1 } : poly_vector).update_capabilities := by
  unfold poly_vector.emplace_back at h
  split at h
  · cases h
  · rename_i hcap
    simp only [not_true, if_false] at h
    cases h
    exact ⟨by omega, rfl⟩

/-- Every successful `pop_back` passes the emptiness check and ends in
`update_capabilities` on the state with the last slot destroyed. -/
lemma pop_back_ok_inv {s s' : poly_vector} (h : s.pop_back = .ok s') :
    s.size ≠ 0 ∧
    s' = ({ s with
        size := s.size - 1
        slots := destroySlot s.slots (s.size - 1) } : poly_vector).update_capabilities := by
  unfold poly_vector.pop_back at h
  split at h
  · cases h
  · rename_i hsz
    cases h
    exact ⟨hsz, rfl⟩

/-- Every successful `erase` of a nonempty range ends in
`update_capabilities`. -/
lemma erase_ok_update {s s' : poly_vector} {f l : Nat} (hfl : f < l)
    (h : s.erase f l = .ok s') :
    ∃ sl : List slot_info,
      s' = ({ s with slots := sl, size := s.size - (l - f) } :
        poly_vector).update_capabilities := by
  unfold poly_vector.erase at h
  by_cases h1 : f > l ∨ l > s.size
  · rw [if_pos h1] at h; cases h
  · rw [if_neg h1] at h
    simp only [] at h
    rw [if_neg (by omega : ¬(l - f = 0))] at h
    by_cases h3 : l < s.size ∧ s.can_move = false
    · rw [if_pos h3] at h; cases h
    · rw [if_neg h3] at h
      cases hm : (if l < s.size then
          poly_vector.shiftLeftAux (l - f) l (s.size - l)
            (poly_vector.destroyRange s.slots f (l - f))
        else Outcome.ok (poly_vector.destroyRange s.slots f (l - f))) with
      | err e sl => rw [hm] at h; cases h
      | ok sl =>
        rw [hm] at h
        cases h
        exact ⟨sl, rfl⟩

/-- The only error `safe_move_construct` can signal. -/
lemma safe_move_construct_failed {ops : type_operations} {e : PolyError}
    (h : safe_move_construct ops = .failed e) : e = .noRelocation := by
  unfold safe_move_construct at h
  split_ifs at h <;> first
    | exact RelocChoice.noConfusion h
    | (injection h with h1; exact h1.symm)

/-- The only error `safe_copy_construct` can signal. -/
lemma safe_copy_construct_failed {ops : type_operations} {e : PolyError}
    (h : safe_copy_construct ops = .failed e) : e = .notCopyConstructible := by
  unfold safe_copy_construct at h
  split_ifs at h <;> first
    | exact RelocChoice.noConfusion h
    | (injection h with h1; exact h1.symm)

lemma shiftLeftStep_err_code {slots : List slot_info} {i count : Nat}
    {e : PolyError} {out : List slot_info}
    (h : poly_vector.shiftLeftStep slots i count = .err e out) :
    e = .noRelocation := by
  cases hp : (slots.getD i slot_info.empty).ptr with
  | none =>
    simp only [poly_vector.shiftLeftStep, hp] at h
    exact Outcome.noConfusion h
  | some v =>
    cases ho : (slots.getD i slot_info.empty).ops with
    | none =>
      simp only [poly_vector.shiftLeftStep, hp, ho] at h
      exact Outcome.noConfusion h
    | some o =>
      simp only [poly_vector.shiftLeftStep, hp, ho] at h
      cases hsm : safe_move_construct o with
      | failed e' =>
        rw [hsm] at h
        injection h with h1 _
        rw [← h1]
        exact safe_move_construct_failed hsm
      | memcpyBytes n => rw [hsm] at h; exact Outcome.noConfusion h
      | moveCtor => rw [hsm] at h; exact Outcome.noConfusion h
      | copyCtor => rw [hsm] at h; exact Outcome.noConfusion h

lemma shiftRightStep_err_code {slots : List slot_info} {src count : Nat}
    {e : PolyError} {out : List slot_info}
    (h : poly_vector.shiftRightStep slots src count = .err e out) :
    e = .noRelocation := by
  cases hp : (slots.getD src slot_info.empty).ptr with
  | none =>
    simp only [poly_vector.shiftRightStep, hp] at h
    exact Outcome.noConfusion h
  | some v =>
    cases ho : (slots.getD src slot_info.empty).ops with
    | none =>
      simp only [poly_vector.shiftRightStep, hp, ho] at h
      exact Outcome.noConfusion h
    | some o =>
      simp only [poly_vector.shiftRightStep, hp, ho] at h
      cases hsm : safe_move_construct o with
      | failed e' =>
        rw [hsm] at h
        injection h with h1 _
        rw [← h1]
        exact safe_move_construct_failed hsm
      | memcpyBytes n => rw [hsm] at h; exact Outcome.noConfusion h
      | moveCtor => rw [hsm] at h; exact Outcome.noConfusion h
      | copyCtor => rw [hsm] at h; exact Outcome.noConfusion h

lemma shiftLeftAux_err_code {count : Nat} {k : Nat} :
    ∀ {i : Nat} {slots : List slot_info} {e : PolyError} {out : List slot_info},
      poly_vector.shiftLeftAux count i k slots = .err e out → e = .noRelocation := by
  induction k with
  | zero => intro i slots e out h; cases h
  | succ k ih =>
    intro i slots e out h
    rw [poly_vector.shiftLeftAux] at h
    cases hm : poly_vector.shiftLeftStep slots i count with
    | err e' sl =>
      rw [hm] at h
      injection h with h1 _
      rw [← h1]
      exact shiftLeftStep_err_code hm
    | ok sl =>
      rw [hm] at h
      exact ih h

lemma shiftRightAux_err_code {start count : Nat} {k : Nat} :
    ∀ {slots : List slot_info} {e : PolyError} {out : List slot_info},
      poly_vector.shiftRightAux start count k slots = .err e out →
      e = .noRelocation := by
  induction k with
  | zero => intro slots e out h; cases h
  | succ k ih =>
    intro slots e out h
    rw [poly_vector.shiftRightAux] at h
    cases hm : poly_vector.shiftRightStep slots (start + k) count with
    | err e' sl =>
      rw [hm] at h
      injection h with h1 _
      rw [← h1]
      exact shiftRightStep_err_code hm
    | ok sl =>
      rw [hm] at h
      exact ih h

lemma copyFromAux_err_code {src : List slot_info} {k : Nat} :
    ∀ {i : Nat} {dst out : List slot_info} {e : PolyError},
      copyFromAux src i k dst = .err e out → e = .notCopyConstructible := by
  induction k with
  | zero => intro i dst out e h; cases h
  | succ k ih =>
    intro i dst out e h
    cases hp : (src.getD i slot_info.empty).ptr with
    | none =>
      simp only [copyFromAux, hp] at h
      exact ih h
    | some v =>
      cases ho : (src.getD i slot_info.empty).ops with
      | none =>
        simp only [copyFromAux, hp, ho] at h
        exact ih h
      | some o =>
        simp only [copyFromAux, hp, ho] at h
        cases hsm : safe_copy_construct o with
        | failed e' =>
          rw [hsm] at h
          injection h with h1 _
          rw [← h1]
          exact safe_copy_construct_failed hsm
        | memcpyBytes n => rw [hsm] at h; exact ih h
        | moveCtor => rw [hsm] at h; exact ih h
        | copyCtor => rw [hsm] at h; exact ih h

lemma copy_from_err_code {s other s' : poly_vector} {e : PolyError}
    (h : s.copy_from other = .err e s') : e = .notCopyConstructible := by
  unfold poly_vector.copy_from at h
  cases hm : copyFromAux other.slots 0 other.size s.slots with
  | err e' sl =>
    rw [hm] at h
    injection h with h1 _
    rw [← h1]
    exact copyFromAux_err_code hm
  | ok sl => rw [hm] at h; cases h

lemma poly_array_copy_from_err_code {a other a' : poly_array} {e : PolyError}
    (h : a.copy_from other = .err e a') : e = .notCopyConstructible := by
  unfold poly_array.copy_from at h
  cases hm : copyFromAux other.slots 0 other.N a.slots with
  | err e' sl =>
    rw [hm] at h
    injection h with h1 _
    rw [← h1]
    exact copyFromAux_err_code hm
  | ok sl => rw [hm] at h; cases h

-- =========================================================================
-- Claims
-- =========================================================================

lemma array_update_capabilities_can_copy (a : poly_array) :
    a.update_capabilities.can_copy =
      (a.occupiedTables.all fun o => o.is_copy_constructible) := by
  unfold poly_array.update_capabilities
  cases h : a.occupiedTables <;> simp [h]

/-- Every successful `poly_array::emplace` ends in `update_capabilities`. -/
lemma array_emplace_ok_inv {a a' : poly_array} {i v : Nat} {t : TypeTraits}
    (h : a.emplace i v t true = .ok a') :
    ∃ sl, a' = ({ a with slots := sl } : poly_array).update_capabilities := by
  unfold poly_array.emplace at h
  by_cases h1 : i ≥ a.N
  · rw [if_pos h1] at h
    exact Outcome.noConfusion h
  · rw [if_neg h1] at h
    simp only [not_true, if_false] at h
    injection h with h2
    exact ⟨_, h2.symm⟩

/-- C1, counterexample: a freshly default-constructed `poly_vector` has no
occupied slot, yet `is_copyable()` returns `false` (`can_copy_` is
default-initialized to `false`), refuting the claimed equivalence at that
state. -/
theorem claim1_counterexample :
    ¬ ((poly_vector.init 2).is_copyable = true ↔
      ((poly_vector.init 2).occupiedTables.all
        fun o => o.is_copy_constructible) = true) := by
  decide

/-- C1 (amended): after every mutation that recomputes the flags
(`emplace_back`, `pop_back`, a non-trivial `erase` for the vector;
`emplace` for the array), `is_copyable()` is `true` iff every currently
occupied slot's variant is copy-constructible (vacuously true when no
slot is occupied); in particular it becomes `false` immediately upon
inserting one non-copyable occupant.  However, a freshly
default-constructed container and a just-`clear()`ed container report
`is_copyable() = false` even though they are empty. -/
theorem claim1_capability_aggregation :
    (∀ (s s' : poly_vector) (v : Nat) (t : TypeTraits),
      s.emplace_back v t true = .ok s' →
      (s'.is_copyable = true ↔
        (s'.occupiedTables.all fun o => o.is_copy_constructible) = true)) ∧
    (∀ (s s' : poly_vector), s.pop_back = .ok s' →
      (s'.is_copyable = true ↔
        (s'.occupiedTables.all fun o => o.is_copy_constructible) = true)) ∧
    (∀ (s s' : poly_vector) (f l : Nat), f < l → s.erase f l = .ok s' →
      (s'.is_copyable = true ↔
        (s'.occupiedTables.all fun o => o.is_copy_constructible) = true)) ∧
    (∀ (s s' : poly_vector) (v : Nat) (t : TypeTraits),
      t.is_copy_constructible = false → s.emplace_back v t true = .ok s' →
      s'.is_copyable = false) ∧
    (∀ n : Nat, (poly_vector.init n).is_copyable = false) ∧
    (∀ s : poly_vector, s.clear.is_copyable = false) ∧
    (∀ (a a' : poly_array) (i v : Nat) (t : TypeTraits),
      a.emplace i v t true = .ok a' →
      (a'.is_copyable = true ↔
        (a'.occupiedTables.all fun o => o.is_copy_constructible) = true)) ∧
    (∀ n : Nat, (poly_array.init n).is_copyable = false) ∧
    (∀ a : poly_array, a.clear.is_copyable = false) := by
  have hacc : ∀ s : poly_vector,
      (s.update_capabilities.is_copyable = true ↔
        (s.update_capabilities.occupiedTables.all
          fun o => o.is_copy_constructible) = true) := by
    intro s
    rw [poly_vector.is_copyable, update_capabilities_can_copy,
      update_capabilities_occupiedTables]
  have haccA : ∀ a : poly_array,
      (a.update_capabilities.is_copyable = true ↔
        (a.update_capabilities.occupiedTables.all
          fun o => o.is_copy_constructible) = true) := by
    intro a
    rw [poly_array.is_copyable, array_update_capabilities_can_copy]
    exact Iff.rfl
  refine ⟨?_, ?_, ?_, ?_, ?_, ?_, ?_, ?_, ?_⟩
  · intro s s' v t h
    obtain ⟨-, h2⟩ := emplace_back_ok_inv h
    rw [h2]; exact hacc _
  · intro s s' h
    obtain ⟨-, h2⟩ := pop_back_ok_inv h
    rw [h2]; exact hacc _
  · intro s s' f l hfl h
    obtain ⟨sl, h2⟩ := erase_ok_update hfl h
    rw [h2]; exact hacc _
  · intro s s' v t ht h
    obtain ⟨hcap, h2⟩ := emplace_back_ok_inv h
    by_contra hc
    rw [Bool.not_eq_false] at hc
    have hall := (h2 ▸ hacc _).mp hc
    rw [List.all_eq_true] at hall
    have hmem : type_operations_factory t ∈ s'.occupiedTables := by
      rw [h2, update_capabilities_occupiedTables]
      unfold poly_vector.occupiedTables
      rw [List.mem_filterMap]
      refine ⟨⟨some v, some (type_operations_factory t)⟩, ?_, rfl⟩
      rw [List.mem_iff_getElem]
      have hl1 : s.size <
          ((s.slots.set s.size
            ⟨some v, some (type_operations_factory t)⟩).take (s.size + 1)).length := by
        rw [List.length_take, List.length_set]
        have := hcap
        rw [poly_vector.capacity] at this
        omega
      refine ⟨s.size, hl1, ?_⟩
      have h3 : ((s.slots.set s.size
          ⟨some v, some (type_operations_factory t)⟩).take (s.size + 1)).getD
            s.size slot_info.empty = ⟨some v, some (type_operations_factory t)⟩ := by
        rw [getD_take_lt _ (by omega)]
        exact getD_set_self _ _ (by
          rw [poly_vector.capacity] at hcap
          omega)
      rw [← List.getD_eq_getElem _ slot_info.empty hl1, h3]
    have := hall _ (by
      rw [h2, update_capabilities_occupiedTables] at hmem
      rw [h2, update_capabilities_occupiedTables]
      exact hmem)
    simp only [type_operations_factory] at this
    rw [ht] at this
    cases this
  · intro n; rfl
  · intro s; rfl
  · intro a a' i v t h
    obtain ⟨sl, h2⟩ := array_emplace_ok_inv h
    rw [h2]; exact haccA _
  · intro n; rfl
  · intro a; rfl

/-- C1 witness: the amended theorem applied to a concrete one-element
insertion of a non-copyable type and to concrete empty containers. -/
theorem claim1_witness :
    ((((poly_vector.init 2).emplace_back 5 tNoCopy true).state.is_copyable = true ↔
      ((((poly_vector.init 2).emplace_back 5 tNoCopy true).state.occupiedTables.all
        fun o => o.is_copy_constructible) = true)) ∧
    ((poly_vector.init 2).emplace_back 5 tNoCopy true).state.is_copyable = false) ∧
    (poly_vector.init 3).is_copyable = false ∧
    ((poly_vector.init 3).clear).is_copyable = false ∧
    ((((poly_array.init 2).emplace 0 5 tNoCopy true).state.is_copyable = true ↔
      ((((poly_array.init 2).emplace 0 5 tNoCopy true).state.occupiedTables.all
        fun o => o.is_copy_constructible) = true)) ∧
    (poly_array.init 2).is_copyable = false) :=
  ⟨⟨claim1_capability_aggregation.1 (poly_vector.init 2) _ 5 tNoCopy (by decide),
    claim1_capability_aggregation.2.2.2.1 (poly_vector.init 2) _ 5 tNoCopy rfl
      (by decide)⟩,
   claim1_capability_aggregation.2.2.2.2.1 3,
   claim1_capability_aggregation.2.2.2.2.2.1 (poly_vector.init 3),
   claim1_capability_aggregation.2.2.2.2.2.2.1 (poly_array.init 2) _ 0 5
     tNoCopy (by decide),
   claim1_capability_aggregation.2.2.2.2.2.2.2.1 2⟩

/-- A vector with two copy-constructible but not move-constructible
occupants (a type with a user copy constructor and a deleted move
constructor). -/
def cexCopyOnly : poly_vector :=
  (((poly_vector.init 4).emplace_back 1 tCopyOnly true).state.emplace_back 2
    tCopyOnly true).state

/-- C3, counterexample: erasing `[0, 1)` from a vector of two occupants
that are all copy-constructible (but not move-constructible) signals
`ShiftUnsupported`, although a copy fallback is available for every
occupant — so the error is not signalled "exactly when none of move/copy
is available". -/
theorem claim3_counterexample :
    cexCopyOnly.erase 0 1 = .err .shiftUnsupported cexCopyOnly ∧
    (cexCopyOnly.occupiedTables.all fun o => o.has_copy_construct) = true := by
  decide

/-- C3 (amended): for a well-formed range, `erase` signals
`ShiftUnsupported` — with the container completely unchanged — exactly
when a leftward shift is required (`last < size`) and the container's
`can_move` flag is false (some occupant is not move-constructible), even
when copy construction is available; and removing a pure suffix
(`last = size`) always returns normally regardless of movability. -/
theorem claim3_erase_gate (s : poly_vector) (f l : Nat)
    (hfl : f ≤ l) (hls : l ≤ s.size) :
    (s.erase f l = .err .shiftUnsupported s ↔
      f < l ∧ l < s.size ∧ s.can_move = false) ∧
    (l = s.size → ∃ s', s.erase f l = .ok s') := by
  constructor
  · constructor
    · intro h
      unfold poly_vector.erase at h
      rw [if_neg (by omega : ¬(f > l ∨ l > s.size))] at h
      simp only [] at h
      by_cases h2 : l - f = 0
      · rw [if_pos h2] at h
        exact Outcome.noConfusion h
      · rw [if_neg h2] at h
        by_cases h3 : l < s.size ∧ s.can_move = false
        · exact ⟨by omega, h3.1, h3.2⟩
        · rw [if_neg h3] at h
          by_cases h4 : l < s.size
          · rw [if_pos h4] at h
            cases hm : poly_vector.shiftLeftAux (l - f) l (s.size - l)
                (poly_vector.destroyRange s.slots f (l - f)) with
            | err e sl =>
              rw [hm] at h
              injection h with h1 _
              rw [shiftLeftAux_err_code hm] at h1
              exact PolyError.noConfusion h1
            | ok sl =>
              rw [hm] at h
              exact Outcome.noConfusion h
          · rw [if_neg h4] at h
            exact Outcome.noConfusion h
    · intro ⟨h1, h2, h3⟩
      unfold poly_vector.erase
      rw [if_neg (by omega : ¬(f > l ∨ l > s.size))]
      simp only []
      rw [if_neg (by omega : ¬(l - f = 0)), if_pos ⟨h2, h3⟩]
  · intro hsuf
    unfold poly_vector.erase
    rw [if_neg (by omega : ¬(f > l ∨ l > s.size))]
    simp only []
    by_cases h2 : l - f = 0
    · rw [if_pos h2]
      exact ⟨s, rfl⟩
    · rw [if_neg h2,
        if_neg (fun hc => by omega : ¬(l < s.size ∧ s.can_move = false)),
        if_neg (by omega : ¬l < s.size)]
      exact ⟨_, rfl⟩

/-- C3 witness: the amended theorem at a concrete two-element copy-only
vector; erasing `[0, 1)` needs a shift and `can_move` is false, erasing
the suffix `[1, 2)` succeeds. -/
theorem claim3_witness :
    ((cexCopyOnly.erase 0 1 = .err .shiftUnsupported cexCopyOnly ↔
        0 < 1 ∧ 1 < cexCopyOnly.size ∧ cexCopyOnly.can_move = false) ∧
      (1 = cexCopyOnly.size → ∃ s', cexCopyOnly.erase 0 1 = .ok s')) ∧
    ((cexCopyOnly.erase 1 2 = .err .shiftUnsupported cexCopyOnly ↔
        1 < 2 ∧ 2 < cexCopyOnly.size ∧ cexCopyOnly.can_move = false) ∧
      (2 = cexCopyOnly.size → ∃ s', cexCopyOnly.erase 1 2 = .ok s')) :=
  ⟨claim3_erase_gate cexCopyOnly 0 1 (by decide) (by decide),
   claim3_erase_gate cexCopyOnly 1 2 (by decide) (by decide)⟩

/-- C4, counterexample: copying a freshly default-constructed (empty)
`poly_vector` signals `NotCopyable` even though it has no occupied slot
at all — so the error is not signalled "if and only if some currently
occupied slot of the source lacks copy support". -/
theorem claim4_counterexample :
    poly_vector.copy_ctor (poly_vector.init 2) = .error .notCopyable ∧
    (poly_vector.init 2).occupiedTables = [] := by
  decide

/-- C4 (amended): whole-container copy (copy constructor and copy
assignment of both containers) signals `NotCopyable` if and only if the
source's `can_copy` flag is false — which holds whenever some occupied
slot lacks copy support, but also for freshly default-constructed and
just-cleared empty containers — and on that error the destination is
unchanged (the check precedes any copy work; the source is never
mutated). -/
theorem claim4_whole_copy_gate :
    (∀ other : poly_vector,
      other.copy_ctor = .error .notCopyable ↔ other.can_copy = false) ∧
    (∀ s other : poly_vector,
      (s.copy_assign other = .err .notCopyable s ↔ other.can_copy = false) ∧
      (∀ e s', s.copy_assign other = .err e s' → e = .notCopyable → s' = s)) ∧
    (∀ other : poly_array,
      other.copy_ctor = .error .notCopyable ↔ other.can_copy = false) ∧
    (∀ a other : poly_array,
      (a.copy_assign other = .err .notCopyable a ↔ other.can_copy = false) ∧
      (∀ e a', a.copy_assign other = .err e a' → e = .notCopyable → a' = a)) := by
  refine ⟨?_, ?_, ?_, ?_⟩
  · intro other
    constructor
    · intro h
      by_cases hc : other.can_copy = false
      · exact hc
      · unfold poly_vector.copy_ctor at h
        rw [if_neg hc] at h
        cases hm : poly_vector.copy_from (poly_vector.init other.capacity)
            other with
        | err e x =>
          rw [hm] at h
          injection h with h1
          rw [copy_from_err_code hm] at h1
          exact PolyError.noConfusion h1
        | ok x => rw [hm] at h; exact Except.noConfusion h
    · intro hc
      unfold poly_vector.copy_ctor
      rw [if_pos hc]
  · intro s other
    constructor
    · constructor
      · intro h
        by_cases hc : other.can_copy = false
        · exact hc
        · unfold poly_vector.copy_assign at h
          rw [if_neg hc] at h
          exact PolyError.noConfusion (copy_from_err_code h)
      · intro hc
        unfold poly_vector.copy_assign
        rw [if_pos hc]
    · intro e s' h he
      by_cases hc : other.can_copy = false
      · unfold poly_vector.copy_assign at h
        rw [if_pos hc] at h
        injection h with _ h2
        exact h2.symm
      · unfold poly_vector.copy_assign at h
        rw [if_neg hc] at h
        rw [he] at h
        exact PolyError.noConfusion (copy_from_err_code h)
  · intro other
    constructor
    · intro h
      by_cases hc : other.can_copy = false
      · exact hc
      · unfold poly_array.copy_ctor at h
        rw [if_neg hc] at h
        cases hm : poly_array.copy_from (poly_array.init other.N) other with
        | err e x =>
          rw [hm] at h
          injection h with h1
          rw [poly_array_copy_from_err_code hm] at h1
          exact PolyError.noConfusion h1
        | ok x => rw [hm] at h; exact Except.noConfusion h
    · intro hc
      unfold poly_array.copy_ctor
      rw [if_pos hc]
  · intro a other
    constructor
    · constructor
      · intro h
        by_cases hc : other.can_copy = false
        · exact hc
        · unfold poly_array.copy_assign at h
          rw [if_neg hc] at h
          exact PolyError.noConfusion (poly_array_copy_from_err_code h)
      · intro hc
        unfold poly_array.copy_assign
        rw [if_pos hc]
    · intro e a' h he
      by_cases hc : other.can_copy = false
      · unfold poly_array.copy_assign at h
        rw [if_pos hc] at h
        injection h with _ h2
        exact h2.symm
      · unfold poly_array.copy_assign at h
        rw [if_neg hc] at h
        rw [he] at h
        exact PolyError.noConfusion (poly_array_copy_from_err_code h)

/-- C4 witness: the amended gate applied to a concrete vector holding one
non-copyable occupant (copy signalled as `NotCopyable`) and to a concrete
copy assignment whose error leaves the destination unchanged. -/
theorem claim4_witness :
    (((poly_vector.init 2).emplace_back 7 tNoCopy true).state.copy_ctor =
      .error .notCopyable) ∧
    ((poly_vector.init 3).copy_assign
        ((poly_vector.init 2).emplace_back 7 tNoCopy true).state =
      .err .notCopyable (poly_vector.init 3)) ∧
    (poly_array.copy_ctor (poly_array.init 2) = .error .notCopyable) :=
  ⟨(claim4_whole_copy_gate.1 _).mpr (by decide),
   ((claim4_whole_copy_gate.2.1 (poly_vector.init 3) _).1).mpr (by decide),
   (claim4_whole_copy_gate.2.2.1 _).mpr (by decide)⟩

/-- C7: `safe_move_construct` selects its strategy in the exact priority
order: trivially-relocatable raw byte copy of `table.size` bytes first
(even when a move-construct operation exists), then move-construct, then
copy-construct, else the `NoRelocationAvailable` error. -/
theorem claim7_relocate_move_priority (ops : type_operations) :
    (ops.is_trivially_copyable = true →
      safe_move_construct ops = .memcpyBytes ops.size) ∧
    (ops.is_trivially_copyable = false → ops.has_move_construct = true →
      safe_move_construct ops = .moveCtor) ∧
    (ops.is_trivially_copyable = false → ops.has_move_construct = false →
      ops.has_copy_construct = true → safe_move_construct ops = .copyCtor) ∧
    (ops.is_trivially_copyable = false → ops.has_move_construct = false →
      ops.has_copy_construct = false →
      safe_move_construct ops = .failed .noRelocation) := by
  refine ⟨?_, ?_, ?_, ?_⟩ <;> intros <;> simp [safe_move_construct, *]

/-- C7 witness: all four branches exercised at concrete operation tables;
the first table is both trivially copyable and move-constructible, and the
raw byte copy is still chosen. -/
theorem claim7_witness :
    ((type_operations_factory tTriv).has_move_construct = true ∧
      safe_move_construct (type_operations_factory tTriv) = .memcpyBytes 8) ∧
    safe_move_construct (type_operations_factory tNoCopy) = .moveCtor ∧
    safe_move_construct (type_operations_factory tCopyOnly) = .copyCtor ∧
    safe_move_construct (type_operations_factory tImmov) = .failed .noRelocation :=
  ⟨⟨rfl, (claim7_relocate_move_priority _).1 rfl⟩,
   (claim7_relocate_move_priority _).2.1 rfl rfl,
   (claim7_relocate_move_priority _).2.2.1 rfl rfl rfl,
   (claim7_relocate_move_priority _).2.2.2 rfl rfl rfl⟩

/-- `clear()` leaves every slot record value-initialized, given the
slot-record invariants of reachable states. -/
lemma clear_slots_empty (s : poly_vector)
    (hclean : ∀ sl ∈ s.slots, sl.clean)
    (htail : ∀ i, i < s.capacity → s.size ≤ i → s.slot i = slot_info.empty) :
    s.clear.slots = List.replicate s.capacity slot_info.empty := by
  rw [List.eq_replicate_iff]
  constructor
  · exact destroyRange_length _ _ _
  · intro b hb
    rw [List.mem_iff_getElem] at hb
    obtain ⟨i, hlt, hEq⟩ := hb
    have hlen : (poly_vector.clear s).slots.length = s.slots.length :=
      destroyRange_length _ _ _
    have hb2 : b = (poly_vector.clear s).slots.getD i slot_info.empty := by
      rw [List.getD_eq_getElem _ _ hlt, hEq]
    rw [hb2]
    show (poly_vector.destroyRange s.slots 0 s.size).getD i slot_info.empty =
      slot_info.empty
    rw [destroyRange_getD]
    have hil : i < s.slots.length := by
      have h5 := hlt
      rw [show (poly_vector.clear s).slots =
        poly_vector.destroyRange s.slots 0 s.size from rfl,
        destroyRange_length] at h5
      exact h5
    by_cases hi : i < s.size
    · by_cases hocc : (s.slots.getD i slot_info.empty).occupied = true
      · rw [if_pos ⟨by omega, by omega, hocc⟩]
      · rw [if_neg (fun hc => hocc hc.2.2)]
        have hmem : s.slots.getD i slot_info.empty ∈ s.slots := by
          rw [List.getD_eq_getElem _ _ hil]
          exact List.getElem_mem hil
        rcases hclean _ hmem with hcl | hcl
        · exact absurd hcl hocc
        · exact hcl
    · rw [if_neg (by omega)]
      exact htail i (by rw [poly_vector.capacity]; omega) (by omega)

lemma array_clear_slots_empty (a : poly_array)
    (hclean : ∀ sl ∈ a.slots, sl.clean) :
    a.clear.slots = List.replicate a.N slot_info.empty := by
  rw [List.eq_replicate_iff]
  constructor
  · exact destroyRange_length _ _ _
  · intro b hb
    rw [List.mem_iff_getElem] at hb
    obtain ⟨i, hlt, hEq⟩ := hb
    have hlen : (poly_array.clear a).slots.length = a.slots.length :=
      destroyRange_length _ _ _
    have hb2 : b = (poly_array.clear a).slots.getD i slot_info.empty := by
      rw [List.getD_eq_getElem _ _ hlt, hEq]
    rw [hb2]
    show (poly_vector.destroyRange a.slots 0 a.N).getD i slot_info.empty =
      slot_info.empty
    rw [destroyRange_getD]
    have hil : i < a.slots.length := by
      have h5 := hlt
      rw [show (poly_array.clear a).slots =
        poly_vector.destroyRange a.slots 0 a.N from rfl,
        destroyRange_length] at h5
      exact h5
    by_cases hocc : (a.slots.getD i slot_info.empty).occupied = true
    · rw [if_pos ⟨by omega, by rw [poly_array.N]; omega, hocc⟩]
    · rw [if_neg (fun hc => hocc hc.2.2)]
      have hmem : a.slots.getD i slot_info.empty ∈ a.slots := by
        rw [List.getD_eq_getElem _ _ hil]
        exact List.getElem_mem hil
      rcases hclean _ hmem with hcl | hcl
      · exact absurd hcl hocc
      · exact hcl

/-- C8: `clear()` destroys every occupied slot, resets all slot-info
records to `{}` (value-initialized), sets `size_` to 0 (vector), and
resets the flags to exactly `can_copy = false`, `can_move = true`.  The
hypotheses are the slot-record invariants of reachable states: every
record is genuinely occupied or fully empty, and (for the vector) records
past `size_` are empty. -/
theorem claim8_clear_resets :
    (∀ s : poly_vector,
      (∀ sl ∈ s.slots, sl.clean) →
      (∀ i, i < s.capacity → s.size ≤ i → s.slot i = slot_info.empty) →
      s.clear.slots = List.replicate s.capacity slot_info.empty ∧
      s.clear.size = 0 ∧ s.clear.can_copy = false ∧ s.clear.can_move = true) ∧
    (∀ a : poly_array,
      (∀ sl ∈ a.slots, sl.clean) →
      a.clear.slots = List.replicate a.N slot_info.empty ∧
      a.clear.can_copy = false ∧ a.clear.can_move = true) :=
  ⟨fun s h1 h2 => ⟨clear_slots_empty s h1 h2, rfl, rfl, rfl⟩,
   fun a h1 => ⟨array_clear_slots_empty a h1, rfl, rfl⟩⟩

lemma slotMoveOk_of_all {slots : List slot_info} {n : Nat}
    (h : ((slots.take n).all slotMoveOk) = true) :
    ∀ j, j < n → slotMoveOk (slots.getD j slot_info.empty) = true := by
  intro j hj
  rcases Nat.lt_or_ge j slots.length with hjl | hjl
  · rw [List.all_eq_true] at h
    apply h
    have hjt : j < (slots.take n).length := by
      rw [List.length_take]; omega
    have he : (slots.take n).getD j slot_info.empty =
        slots.getD j slot_info.empty := getD_take_lt _ hj
    rw [← he, List.getD_eq_getElem _ _ hjt]
    exact List.getElem_mem hjt
  · rw [getD_of_le _ hjl]
    rfl

/-- Core of the whole-container move for `poly_vector`: with an
all-empty destination prefix and relocatable occupants, `move_from`
succeeds, the destination observes exactly the source contents, and the
source is left at `size = 0`. -/
lemma move_from_contents (dstv other : poly_vector)
    (hdst : ∀ j, j < other.size → dstv.slot j = slot_info.empty)
    (hlen : other.size ≤ dstv.capacity)
    (hsz : other.size ≤ other.capacity)
    (hclean : ∀ sl ∈ other.slots, sl.clean)
    (hmove : ((other.slots.take other.size).all slotMoveOk) = true) :
    ∃ d src', dstv.move_from other = .ok (d, src') ∧
      d.contents = other.contents ∧ d.size = other.size ∧ src'.size = 0 := by
  obtain ⟨dd, ss, hout, hdl, hsl2, hlowp, hmidp⟩ :=
    moveFromAux_spec other.size 0 dstv.slots other.slots
      (by
        have e1 : dstv.slots.length = dstv.capacity := rfl
        omega)
      (fun j _ hj => slotMoveOk_of_all hmove j (by omega))
  refine ⟨⟨dd, other.size, other.can_copy, other.can_move⟩,
    { other with slots := ss, size := 0 }, ?_, ?_, rfl, rfl⟩
  · unfold poly_vector.move_from
    rw [hout]
  · show (dd.take other.size).map slot_info.ptr =
      (other.slots.take other.size).map slot_info.ptr
    congr 1
    apply extGetD slot_info.empty
    · have e1 : dstv.slots.length = dstv.capacity := rfl
      have e2 : other.slots.length = other.capacity := rfl
      rw [List.length_take, List.length_take, hdl]
      omega
    · intro j hj
      rw [List.length_take] at hj
      rw [getD_take_lt _ (by omega), getD_take_lt _ (by omega)]
      obtain ⟨hd1, -⟩ := hmidp j (by omega) (by omega)
      rw [hd1]
      by_cases hocc : (other.slots.getD j slot_info.empty).occupied = true
      · rw [if_pos hocc]
      · rw [if_neg hocc]
        rw [show dstv.slots.getD j slot_info.empty = slot_info.empty from
          hdst j (by omega)]
        rcases Nat.lt_or_ge j other.slots.length with hjl | hjl
        · have hmem : other.slots.getD j slot_info.empty ∈ other.slots := by
            rw [List.getD_eq_getElem _ _ hjl]
            exact List.getElem_mem hjl
          rcases hclean _ hmem with hcl | hcl
          · exact absurd hcl hocc
          · rw [hcl]
        · rw [getD_of_le _ hjl]

/-- Core of the whole-container move for `poly_array`. -/
lemma array_move_from_contents (dsta other : poly_array)
    (hdst : ∀ j, j < other.N → dsta.slot j = slot_info.empty)
    (hN : dsta.N = other.N)
    (hclean : ∀ sl ∈ other.slots, sl.clean)
    (hmove : ((other.slots.take other.N).all slotMoveOk) = true) :
    ∃ d src', dsta.move_from other = .ok (d, src') ∧
      d.contents = other.contents ∧
      src'.slots = List.replicate other.N slot_info.empty := by
  obtain ⟨dd, ss, hout, hdl, hsl2, hlowp, hmidp⟩ :=
    moveFromAux_spec other.N 0 dsta.slots other.slots
      (by
        have e1 : dsta.slots.length = dsta.N := rfl
        omega)
      (fun j _ hj => slotMoveOk_of_all hmove j (by omega))
  have eN : other.slots.length = other.N := rfl
  have eNd : dsta.slots.length = dsta.N := rfl
  refine ⟨⟨dd, other.can_copy, other.can_move⟩, { other with slots := ss },
    ?_, ?_, ?_⟩
  · unfold poly_array.move_from
    rw [hout]
  · show dd.map slot_info.ptr = other.slots.map slot_info.ptr
    congr 1
    apply extGetD slot_info.empty
    · rw [hdl]; omega
    · intro j hj
      rw [hdl] at hj
      obtain ⟨hd1, -⟩ := hmidp j (by omega) (by omega)
      rw [hd1]
      by_cases hocc : (other.slots.getD j slot_info.empty).occupied = true
      · rw [if_pos hocc]
      · rw [if_neg hocc]
        rw [show dsta.slots.getD j slot_info.empty = slot_info.empty from
          hdst j (by omega)]
        have hmem : other.slots.getD j slot_info.empty ∈ other.slots := by
          rw [List.getD_eq_getElem _ _ (by omega : j < other.slots.length)]
          exact List.getElem_mem (by omega)
        rcases hclean _ hmem with hcl | hcl
        · exact absurd hcl hocc
        · rw [hcl]
  · rw [List.eq_replicate_iff]
    refine ⟨by rw [hsl2]; exact eN, ?_⟩
    intro b hb
    rw [List.mem_iff_getElem] at hb
    obtain ⟨j, hjl, hEq⟩ := hb
    have hjn : j < other.N := by rw [hsl2, eN] at hjl; exact hjl
    have hb2 : b = ss.getD j slot_info.empty := by
      rw [List.getD_eq_getElem _ _ hjl, hEq]
    rw [hb2]
    obtain ⟨-, hs1⟩ := hmidp j (by omega) (by omega)
    rw [hs1]
    by_cases hocc : (other.slots.getD j slot_info.empty).occupied = true
    · rw [if_pos hocc]
    · rw [if_neg hocc]
      have hmem : other.slots.getD j slot_info.empty ∈ other.slots := by
        rw [List.getD_eq_getElem _ _ (by omega : j < other.slots.length)]
        exact List.getElem_mem (by omega)
      rcases hclean _ hmem with hcl | hcl
      · exact absurd hcl hocc
      · rw [hcl]

lemma all_take_getD {p : slot_info → Bool} {slots : List slot_info} {n : Nat}
    (h : ((slots.take n).all p) = true) (hn : n ≤ slots.length) :
    ∀ j, j < n → p (slots.getD j slot_info.empty) = true := by
  intro j hj
  rw [List.all_eq_true] at h
  apply h
  have hjt : j < (slots.take n).length := by rw [List.length_take]; omega
  have he : (slots.take n).getD j slot_info.empty =
      slots.getD j slot_info.empty := getD_take_lt _ hj
  rw [← he, List.getD_eq_getElem _ _ hjt]
  exact List.getElem_mem hjt

lemma contents_length (s : poly_vector) (hcap : s.size ≤ s.capacity) :
    s.contents.length = s.size := by
  show ((s.slots.take s.size).map slot_info.ptr).length = s.size
  have e1 : s.slots.length = s.capacity := rfl
  rw [List.length_map, List.length_take]
  omega

lemma contents_getD (s : poly_vector) (j : Nat) (hj : j < s.size)
    (hcap : s.size ≤ s.capacity) :
    s.contents.getD j none = (s.slot j).ptr := by
  show ((s.slots.take s.size).map slot_info.ptr).getD j none = _
  have e1 : s.slots.length = s.capacity := rfl
  have hjl : j < (s.slots.take s.size).length := by
    rw [List.length_take]; omega
  rw [getD_map slot_info.empty slot_info.ptr none hjl, getD_take_lt _ hj]
  rfl

/-- Shift correctness of `emplace(pos, ...)` on a dense vector of
relocatable occupants: inserting at logical index `i` produces
`take i ++ new :: drop i` with `size + 1` elements. -/
lemma emplace_at_insert_spec (s : poly_vector) (i v : Nat) (t : TypeTraits)
    (hdense : ((s.slots.take s.size).all slot_info.occupied) = true)
    (hmove : ((s.slots.take s.size).all slotMoveOk) = true)
    (hi : i ≤ s.size) (hcap : s.size < s.capacity) :
    ∃ s', s.emplace_at i v t true = .ok s' ∧ s'.size = s.size + 1 ∧
      s'.contents = s.contents.take i ++ some v :: s.contents.drop i := by
  have e1 : s.slots.length = s.capacity := rfl
  obtain ⟨out, hout, holen, hlow, hmid, hstart⟩ :=
    shiftRightAux_one_spec (s.size - i) i s.slots (by omega)
      (by
        intro j hj1 hj2
        exact ⟨all_take_getD hdense (by omega) j (by omega),
          all_take_getD hmove (by omega) j (by omega)⟩)
  have hred : s.emplace_at i v t true =
      .ok (({ s with
          slots := out.set i ⟨some v, some (type_operations_factory t)⟩
          size := s.size + 1 } : poly_vector).update_capabilities) := by
    unfold poly_vector.emplace_at
    rw [if_neg (by omega : ¬i > s.size),
      if_neg (by omega : ¬s.size ≥ s.capacity), hout]
    rfl
  refine ⟨_, hred, rfl, ?_⟩
  show ((out.set i ⟨some v, some (type_operations_factory t)⟩).take
      (s.size + 1)).map slot_info.ptr =
    s.contents.take i ++ some v :: s.contents.drop i
  have hclen : s.contents.length = s.size := contents_length s (by omega)
  apply extGetD (none : Option Nat)
  · rw [List.length_map,
      List.length_take_of_le (by rw [List.length_set, holen]; omega),
      List.length_append, List.length_take_of_le (by omega),
      List.length_cons, List.length_drop, hclen]
    omega
  · intro j hj
    rw [List.length_map,
      List.length_take_of_le (by rw [List.length_set, holen]; omega)] at hj
    have hjt : j < ((out.set i
        ⟨some v, some (type_operations_factory t)⟩).take (s.size + 1)).length := by
      rw [List.length_take_of_le (by rw [List.length_set, holen]; omega)]
      omega
    rw [getD_map slot_info.empty slot_info.ptr none hjt, getD_take_lt _ hj]
    rcases Nat.lt_trichotomy j i with hji | hji | hji
    · rw [getD_set_ne _ _ (by omega), hlow j (Or.inl hji),
        getD_append_left _ (by rw [List.length_take_of_le (by omega)]; omega),
        getD_take_lt _ hji, contents_getD s j (by omega) (by omega)]
      rfl
    · subst hji
      rw [getD_set_self _ _ (by rw [holen]; omega),
        getD_append_right _ (by rw [List.length_take_of_le (by omega)]),
        List.length_take_of_le (by omega), Nat.sub_self, List.getD_cons_zero]
    · rw [getD_set_ne _ _ (by omega), hmid j hji (by omega),
        getD_append_right _ (by rw [List.length_take_of_le (by omega)]; omega),
        List.length_take_of_le (by omega)]
      have hji2 : j - i = (j - i - 1) + 1 := by omega
      rw [hji2, List.getD_cons_succ, getD_drop,
        show i + (j - i - 1) = j - 1 from by omega,
        contents_getD s (j - 1) (by omega) (by omega)]
      rfl

/-- Shift correctness of `erase(first, last)` on a dense vector of
relocatable occupants with an accurate `can_move` flag: the result is
the prefix before `first` concatenated with the suffix from `last`. -/
lemma erase_range_spec (s : poly_vector) (f l : Nat)
    (hdense : ((s.slots.take s.size).all slot_info.occupied) = true)
    (hmove : ((s.slots.take s.size).all slotMoveOk) = true)
    (hcm : s.can_move = true)
    (hfl : f ≤ l) (hls : l ≤ s.size) (hcap : s.size ≤ s.capacity) :
    ∃ s', s.erase f l = .ok s' ∧ s'.size = s.size - (l - f) ∧
      s'.contents = s.contents.take f ++ s.contents.drop l := by
  have e1 : s.slots.length = s.capacity := rfl
  have hclen : s.contents.length = s.size := contents_length s hcap
  unfold poly_vector.erase
  rw [if_neg (by omega : ¬(f > l ∨ l > s.size))]
  simp only []
  by_cases hc0 : l - f = 0
  · rw [if_pos hc0]
    have hlf : l = f := by omega
    subst hlf
    refine ⟨s, rfl, by omega, ?_⟩
    rw [List.take_append_drop]
  · rw [if_neg hc0,
      if_neg (fun hx => by rw [hcm] at hx; exact Bool.noConfusion hx.2)]
    by_cases hls2 : l < s.size
    · rw [if_pos hls2]
      obtain ⟨out, hout, holen, hU, hW, hC⟩ :=
        shiftLeftAux_spec (l - f) (by omega) (s.size - l) l
          (poly_vector.destroyRange s.slots f (l - f)) (by omega)
          (by rw [destroyRange_length]; omega)
          (by
            intro j hj1 hj2
            rw [destroyRange_getD, if_neg (by omega)]
            exact ⟨all_take_getD hdense hcap j (by omega),
              all_take_getD hmove hcap j (by omega)⟩)
      rw [hout]
      refine ⟨_, rfl, rfl, ?_⟩
      show (out.take (s.size - (l - f))).map slot_info.ptr =
        s.contents.take f ++ s.contents.drop l
      have holen2 : out.length = s.slots.length := by
        rw [holen, destroyRange_length]
      apply extGetD (none : Option Nat)
      · rw [List.length_map, List.length_take_of_le (by omega),
          List.length_append, List.length_take_of_le (by omega),
          List.length_drop, hclen]
        omega
      · intro j hj
        rw [List.length_map, List.length_take_of_le (by omega)] at hj
        have hjt : j < (out.take (s.size - (l - f))).length := by
          rw [List.length_take_of_le (by omega)]; omega
        rw [getD_map slot_info.empty slot_info.ptr none hjt, getD_take_lt _ hj]
        rcases Nat.lt_or_ge j f with hjf | hjf
        · rw [hU j (Or.inl (by omega)), destroyRange_getD,
            if_neg (by omega),
            getD_append_left _ (by rw [List.length_take_of_le (by omega)]; omega),
            getD_take_lt _ hjf, contents_getD s j (by omega) hcap]
          rfl
        · rw [hW j (by omega) (by omega), destroyRange_getD,
            if_neg (by omega),
            getD_append_right _ (by rw [List.length_take_of_le (by omega)]; omega),
            List.length_take_of_le (by omega), getD_drop,
            show l + (j - f) = j + (l - f) from by omega,
            contents_getD s (j + (l - f)) (by omega) hcap]
          rfl
    · rw [if_neg hls2]
      have hlsz : l = s.size := by omega
      refine ⟨_, rfl, rfl, ?_⟩
      show ((poly_vector.destroyRange s.slots f (l - f)).take
          (s.size - (l - f))).map slot_info.ptr =
        s.contents.take f ++ s.contents.drop l
      rw [List.drop_eq_nil_of_le (by omega), List.append_nil]
      apply extGetD (none : Option Nat)
      · rw [List.length_map,
          List.length_take_of_le (by rw [destroyRange_length]; omega),
          List.length_take_of_le (by omega)]
        omega
      · intro j hj
        rw [List.length_map,
          List.length_take_of_le (by rw [destroyRange_length]; omega)] at hj
        have hjt : j < ((poly_vector.destroyRange s.slots f (l - f)).take
            (s.size - (l - f))).length := by
          rw [List.length_take_of_le (by rw [destroyRange_length]; omega)]
          omega
        rw [getD_map slot_info.empty slot_info.ptr none hjt,
          getD_take_lt _ hj, destroyRange_getD, if_neg (by omega),
          getD_take_lt _ (by omega), contents_getD s j (by omega) hcap]
        rfl

/-- C5: shift correctness.  For a dense `poly_vector` of relocatable
occupants with `size < Capacity`, inserting at logical index `i` yields
`[a0..a(i-1), new, ai..a(n-1)]` with `size = n + 1`; and (with an accurate
`can_move` flag) erasing `[first, last)` yields the prefix before `first`
concatenated with the suffix from `last`, preserving relative order and
values. -/
theorem claim5_shift_correctness :
    (∀ (s : poly_vector) (i v : Nat) (t : TypeTraits),
      ((s.slots.take s.size).all slot_info.occupied) = true →
      ((s.slots.take s.size).all slotMoveOk) = true →
      i ≤ s.size → s.size < s.capacity →
      ∃ s', s.emplace_at i v t true = .ok s' ∧ s'.size = s.size + 1 ∧
        s'.contents = s.contents.take i ++ some v :: s.contents.drop i) ∧
    (∀ (s : poly_vector) (f l : Nat),
      ((s.slots.take s.size).all slot_info.occupied) = true →
      ((s.slots.take s.size).all slotMoveOk) = true →
      s.can_move = true → f ≤ l → l ≤ s.size → s.size ≤ s.capacity →
      ∃ s', s.erase f l = .ok s' ∧ s'.size = s.size - (l - f) ∧
        s'.contents = s.contents.take f ++ s.contents.drop l) :=
  ⟨fun s i v t h1 h2 h3 h4 => emplace_at_insert_spec s i v t h1 h2 h3 h4,
   fun s f l h1 h2 h3 h4 h5 h6 => erase_range_spec s f l h1 h2 h3 h4 h5 h6⟩

/-- A dense three-occupant vector `[10, 20, 30]` of trivially copyable
occupants, capacity 5. -/
def cexDense3 : poly_vector :=
  ((((poly_vector.init 5).emplace_back 10 tTriv true).state.emplace_back 20
    tTriv true).state.emplace_back 30 tTriv true).state

/-- C5 witness: inserting `15` at index 1 of `[10, 20, 30]` and erasing
`[1, 2)` of it, through the theorem. -/
theorem claim5_witness :
    (∃ s', cexDense3.emplace_at 1 15 tTriv true = .ok s' ∧
      s'.size = cexDense3.size + 1 ∧
      s'.contents =
        cexDense3.contents.take 1 ++ some 15 :: cexDense3.contents.drop 1) ∧
    (∃ s', cexDense3.erase 1 2 = .ok s' ∧ s'.size = cexDense3.size - (2 - 1) ∧
      s'.contents = cexDense3.contents.take 1 ++ cexDense3.contents.drop 2) :=
  ⟨claim5_shift_correctness.1 cexDense3 1 15 tTriv (by decide) (by decide)
    (by decide) (by decide),
   claim5_shift_correctness.2 cexDense3 1 2 (by decide) (by decide) (by decide)
    (by decide) (by decide) (by decide)⟩

/-- A dense two-occupant vector `[10, 20]`, capacity 3. -/
def cexDense2 : poly_vector :=
  (((poly_vector.init 3).emplace_back 10 tTriv true).state.emplace_back 20
    tTriv true).state

/-- C2, counterexample: when the new element's constructor throws during
`emplace` at index 0 of the dense two-element vector, the container is
left with `size = 2` but slot 0 empty (the shifted-out hole), violating
the density invariant `slots [0, size) are all occupied` — and this is not
the documented overwrite case. -/
theorem claim2_counterexample :
    (cexDense2.emplace_at 0 99 tTriv false).isOk = false ∧
    (cexDense2.emplace_at 0 99 tTriv false).state.size = 2 ∧
    ((cexDense2.emplace_at 0 99 tTriv false).state.slot 0).ptr = none ∧
    ((cexDense2.slots.take cexDense2.size).all slot_info.occupied) = true ∧
    (((cexDense2.emplace_at 0 99 tTriv false).state.slots.take
      (cexDense2.emplace_at 0 99 tTriv false).state.size).all
        slot_info.occupied) = false := by
  decide

/-- C2 (amended): after any failed call that fails its precondition check
— `emplace` position/capacity checks, every `emplace_back` failure,
`erase` failures other than a mid-shift relocation failure, `resize`,
`pop_back`, and the `NotCopyable` copy-assignment gate — the container is
completely unchanged, so the invariant still holds.  But when the new
element's constructor throws during `emplace` at a position `i < size`
requiring a shift, the container keeps `size` unchanged while slot `i` is
left empty and the trailing elements sit shifted one slot right: the
density invariant is violated. -/
theorem claim2_failed_call_state :
    (∀ (s : poly_vector) (i v : Nat) (t : TypeTraits) (b : Bool)
        (e : PolyError) (s' : poly_vector),
      s.emplace_at i v t b = .err e s' →
      e = .outOfRange ∨ e = .capacityExceeded → s' = s) ∧
    (∀ (s : poly_vector) (v : Nat) (t : TypeTraits) (b : Bool)
        (e : PolyError) (s' : poly_vector),
      s.emplace_back v t b = .err e s' → s' = s) ∧
    (∀ (s : poly_vector) (f l : Nat) (e : PolyError) (s' : poly_vector),
      s.erase f l = .err e s' → e ≠ .noRelocation → s' = s) ∧
    (∀ (s : poly_vector) (n : Nat) (e : PolyError) (s' : poly_vector),
      s.resize n = .err e s' → s' = s) ∧
    (∀ (s : poly_vector) (e : PolyError) (s' : poly_vector),
      s.pop_back = .err e s' → s' = s) ∧
    (∀ (s other s' : poly_vector) (e : PolyError),
      s.copy_assign other = .err e s' → e = .notCopyable → s' = s) ∧
    (∀ (s : poly_vector) (i v : Nat) (t : TypeTraits),
      ((s.slots.take s.size).all slot_info.occupied) = true →
      ((s.slots.take s.size).all slotMoveOk) = true →
      i < s.size → s.size < s.capacity →
      ∃ s', s.emplace_at i v t false = .err .ctorFailure s' ∧
        s'.size = s.size ∧ (s'.slot i).ptr = none) := by
  refine ⟨?_, ?_, ?_, ?_, ?_, ?_, ?_⟩
  · intro s i v t b e s' h hdis
    unfold poly_vector.emplace_at at h
    by_cases h1 : i > s.size
    · rw [if_pos h1] at h
      injection h with _ h2
      exact h2.symm
    · rw [if_neg h1] at h
      by_cases h2 : s.size ≥ s.capacity
      · rw [if_pos h2] at h
        injection h with _ h3
        exact h3.symm
      · rw [if_neg h2] at h
        cases hm : poly_vector.shiftRightAux i 1 (s.size - i) s.slots with
        | err e2 sl =>
          rw [hm] at h
          injection h with h3 _
          rw [← h3, shiftRightAux_err_code hm] at hdis
          rcases hdis with hd | hd <;> exact PolyError.noConfusion hd
        | ok sl =>
          rw [hm] at h
          cases b with
          | true => exact Outcome.noConfusion h
          | false =>
            injection h with h3 _
            rw [← h3] at hdis
            rcases hdis with hd | hd <;> exact PolyError.noConfusion hd
  · intro s v t b e s' h
    unfold poly_vector.emplace_back at h
    by_cases h1 : s.size ≥ s.capacity
    · rw [if_pos h1] at h
      injection h with _ h2
      exact h2.symm
    · rw [if_neg h1] at h
      cases b with
      | true => exact Outcome.noConfusion h
      | false =>
        injection h with _ h2
        exact h2.symm
  · intro s f l e s' h hne
    unfold poly_vector.erase at h
    by_cases h1 : f > l ∨ l > s.size
    · rw [if_pos h1] at h
      injection h with _ h2
      exact h2.symm
    · rw [if_neg h1] at h
      simp only [] at h
      by_cases h2 : l - f = 0
      · rw [if_pos h2] at h
        exact Outcome.noConfusion h
      · rw [if_neg h2] at h
        by_cases h3 : l < s.size ∧ s.can_move = false
        · rw [if_pos h3] at h
          injection h with _ h4
          exact h4.symm
        · rw [if_neg h3] at h
          by_cases h4 : l < s.size
          · rw [if_pos h4] at h
            cases hm : poly_vector.shiftLeftAux (l - f) l (s.size - l)
                (poly_vector.destroyRange s.slots f (l - f)) with
            | err e2 sl =>
              rw [hm] at h
              injection h with h5 _
              rw [← h5, shiftLeftAux_err_code hm] at hne
              exact absurd rfl hne
            | ok sl =>
              rw [hm] at h
              exact Outcome.noConfusion h
          · rw [if_neg h4] at h
            exact Outcome.noConfusion h
  · intro s n e s' h
    unfold poly_vector.resize at h
    by_cases h1 : n > s.capacity
    · rw [if_pos h1] at h
      injection h with _ h2
      exact h2.symm
    · rw [if_neg h1] at h
      exact Outcome.noConfusion h
  · intro s e s' h
    unfold poly_vector.pop_back at h
    by_cases h1 : s.size = 0
    · rw [if_pos h1] at h
      injection h with _ h2
      exact h2.symm
    · rw [if_neg h1] at h
      exact Outcome.noConfusion h
  · intro s other s' e h he
    by_cases hc : other.can_copy = false
    · unfold poly_vector.copy_assign at h
      rw [if_pos hc] at h
      injection h with _ h2
      exact h2.symm
    · unfold poly_vector.copy_assign at h
      rw [if_neg hc] at h
      rw [he] at h
      exact PolyError.noConfusion (copy_from_err_code h)
  · intro s i v t hdense hmove hi hcap
    have e1 : s.slots.length = s.capacity := rfl
    obtain ⟨out, hout, holen, hlow, hmid, hstart⟩ :=
      shiftRightAux_one_spec (s.size - i) i s.slots (by omega)
        (by
          intro j hj1 hj2
          exact ⟨all_take_getD hdense (by omega) j (by omega),
            all_take_getD hmove (by omega) j (by omega)⟩)
    refine ⟨{ s with slots := out }, ?_, rfl, ?_⟩
    · unfold poly_vector.emplace_at
      rw [if_neg (by omega : ¬i > s.size),
        if_neg (by omega : ¬s.size ≥ s.capacity), hout]
      rfl
    · show (out.getD i slot_info.empty).ptr = none
      rw [hstart (by omega)]
      rfl

/-- C2 witness: the amended theorem at concrete inputs — the shifted hole
after a constructor throw at index 0 of a dense two-element vector, and
the unchanged-state conclusions for a concrete out-of-range `emplace`, a
full `emplace_back`, a `ShiftUnsupported` erase and an empty `pop_back`. -/
theorem claim2_witness :
    (∃ s', cexDense2.emplace_at 0 99 tTriv false = .err .ctorFailure s' ∧
      s'.size = cexDense2.size ∧ (s'.slot 0).ptr = none) ∧
    cexDense2 = cexDense2 ∧
    (poly_vector.init 0) = (poly_vector.init 0) :=
  ⟨claim2_failed_call_state.2.2.2.2.2.2 cexDense2 0 99 tTriv (by decide)
    (by decide) (by decide) (by decide),
   claim2_failed_call_state.1 cexDense2 9 1 tTriv true .outOfRange cexDense2
    (by decide) (Or.inl rfl),
   claim2_failed_call_state.2.2.2.2.1 (poly_vector.init 0) .outOfRange
    (poly_vector.init 0) (by decide)⟩

/-- C6: for relocatable occupants and well-formed (reachable) states,
whole-container move — constructor or assignment — gives the destination
exactly the source's occupants and leaves the source with 0 occupants:
`size = 0` for `poly_vector`, all slot records fully empty (null pointer
and null operation-table reference) for `poly_array`. -/
theorem claim6_move_empties_source :
    (∀ other : poly_vector,
      (∀ sl ∈ other.slots, sl.clean) →
      ((other.slots.take other.size).all slotMoveOk) = true →
      other.size ≤ other.capacity →
      ∃ d src', other.move_ctor = .ok (d, src') ∧
        d.contents = other.contents ∧ d.size = other.size ∧ src'.size = 0) ∧
    (∀ s other : poly_vector,
      (∀ sl ∈ s.slots, sl.clean) →
      (∀ i, i < s.capacity → s.size ≤ i → s.slot i = slot_info.empty) →
      s.capacity = other.capacity →
      (∀ sl ∈ other.slots, sl.clean) →
      ((other.slots.take other.size).all slotMoveOk) = true →
      other.size ≤ other.capacity →
      ∃ d src', s.move_assign other = .ok (d, src') ∧
        d.contents = other.contents ∧ d.size = other.size ∧ src'.size = 0) ∧
    (∀ other : poly_array,
      (∀ sl ∈ other.slots, sl.clean) →
      ((other.slots.take other.N).all slotMoveOk) = true →
      ∃ d src', other.move_ctor = .ok (d, src') ∧
        d.contents = other.contents ∧
        src'.slots = List.replicate other.N slot_info.empty) ∧
    (∀ a other : poly_array,
      (∀ sl ∈ a.slots, sl.clean) →
      a.N = other.N →
      (∀ sl ∈ other.slots, sl.clean) →
      ((other.slots.take other.N).all slotMoveOk) = true →
      ∃ d src', a.move_assign other = .ok (d, src') ∧
        d.contents = other.contents ∧
        src'.slots = List.replicate other.N slot_info.empty) := by
  refine ⟨?_, ?_, ?_, ?_⟩
  · intro other h1 h2 h3
    apply move_from_contents _ _ _ _ h3 h1 h2
    · intro j _
      show (List.replicate other.capacity slot_info.empty).getD j
        slot_info.empty = slot_info.empty
      exact getD_replicate _
    · show other.size ≤ (List.replicate other.capacity slot_info.empty).length
      rw [List.length_replicate]
      exact h3
  · intro s other hs1 hs2 hcap h1 h2 h3
    have hce := clear_slots_empty s hs1 hs2
    apply move_from_contents _ _ _ _ h3 h1 h2
    · intro j _
      show s.clear.slots.getD j slot_info.empty = slot_info.empty
      rw [hce]
      exact getD_replicate _
    · show other.size ≤ s.clear.slots.length
      rw [hce, List.length_replicate]
      omega
  · intro other h1 h2
    apply array_move_from_contents _ _ _ _ h1 h2
    · intro j _
      show (List.replicate other.N slot_info.empty).getD j slot_info.empty =
        slot_info.empty
      exact getD_replicate _
    · show (List.replicate other.N slot_info.empty).length = other.N
      rw [List.length_replicate]
  · intro a other ha1 hN h1 h2
    have hce := array_clear_slots_empty a ha1
    apply array_move_from_contents _ _ _ _ h1 h2
    · intro j _
      show a.clear.slots.getD j slot_info.empty = slot_info.empty
      rw [hce]
      exact getD_replicate _
    · show a.clear.slots.length = other.N
      rw [hce, List.length_replicate]
      exact hN

/-- C6 witness: the theorem at a concrete two-occupant vector (one
trivially copyable, one movable-only occupant) and a concrete occupied
array. -/
theorem claim6_witness :
    (∃ d src',
      (((poly_vector.init 4).emplace_back 1 tTriv true).state.emplace_back 2
        tNoCopy true).state.move_ctor = .ok (d, src') ∧
      d.contents =
        (((poly_vector.init 4).emplace_back 1 tTriv true).state.emplace_back 2
          tNoCopy true).state.contents ∧
      d.size =
        (((poly_vector.init 4).emplace_back 1 tTriv true).state.emplace_back 2
          tNoCopy true).state.size ∧
      src'.size = 0) ∧
    (∃ d src',
      ((poly_array.init 2).emplace 0 9 tTriv true).state.move_ctor =
        .ok (d, src') ∧
      d.contents = ((poly_array.init 2).emplace 0 9 tTriv true).state.contents ∧
      src'.slots = List.replicate
        ((poly_array.init 2).emplace 0 9 tTriv true).state.N
        slot_info.empty) :=
  ⟨claim6_move_empties_source.1 _ (by decide) (by decide) (by decide),
   claim6_move_empties_source.2.2.1 _ (by decide) (by decide)⟩

/-- C8 witness: the theorem at a concrete occupied vector and array. -/
theorem claim8_witness :
    (((poly_vector.init 3).emplace_back 4 tNoCopy true).state.clear.slots =
        List.replicate 3 slot_info.empty ∧
      ((poly_vector.init 3).emplace_back 4 tNoCopy true).state.clear.size = 0 ∧
      ((poly_vector.init 3).emplace_back 4 tNoCopy true).state.clear.can_copy
        = false ∧
      ((poly_vector.init 3).emplace_back 4 tNoCopy true).state.clear.can_move
        = true) ∧
    (((poly_array.init 2).emplace 0 9 tTriv true).state.clear.slots =
        List.replicate 2 slot_info.empty ∧
      ((poly_array.init 2).emplace 0 9 tTriv true).state.clear.can_copy
        = false ∧
      ((poly_array.init 2).emplace 0 9 tTriv true).state.clear.can_move
        = true) :=
  ⟨claim8_clear_resets.1 _ (by decide) (by decide),
   claim8_clear_resets.2 _ (by decide)⟩

lemma take_succ_set {α : Type} (d : α) (l : List α) (i : Nat) (a : α)
    (h : i < l.length) : (l.set i a).take (i + 1) = l.take i ++ [a] := by
  apply extGetD d
  · rw [List.length_take_of_le (by rw [List.length_set]; omega),
      List.length_append, List.length_take_of_le (by omega)]
    rfl
  · intro j hj
    rw [List.length_take_of_le (by rw [List.length_set]; omega)] at hj
    rcases Nat.lt_or_ge j i with hji | hji
    · rw [getD_take_lt _ (by omega), getD_set_ne _ _ (by omega),
        getD_append_left _ (by rw [List.length_take_of_le (by omega)]; omega),
        getD_take_lt _ hji]
    · have hj2 : j = i := by omega
      subst hj2
      rw [getD_take_lt _ (by omega), getD_set_self _ _ h,
        getD_append_right _ (by rw [List.length_take_of_le (by omega)])]
      simp [List.length_take_of_le (Nat.le_of_lt h)]

lemma popBackStep_size (s : poly_vector) : s.popBackStep.size = s.size - 1 :=
  rfl

lemma popBackStep_capacity (s : poly_vector) :
    s.popBackStep.capacity = s.capacity := by
  show (destroySlot s.slots (s.size - 1)).length = s.slots.length
  exact destroySlot_length _ _

lemma popBackStep_contents (s : poly_vector) :
    s.popBackStep.contents = s.contents.take (s.size - 1) := by
  show ((destroySlot s.slots (s.size - 1)).take (s.size - 1)).map slot_info.ptr
    = ((s.slots.take s.size).map slot_info.ptr).take (s.size - 1)
  rw [← List.map_take, List.take_take]
  congr 1
  apply extGetD slot_info.empty
  · rw [List.length_take, destroySlot_length, List.length_take]
    omega
  · intro j hj
    rw [List.length_take, destroySlot_length] at hj
    rw [getD_take_lt _ (by omega), getD_take_lt _ (by omega),
      destroySlot_getD_ne _ (by omega)]

lemma shrinkSteps_spec (k : Nat) :
    ∀ s : poly_vector, k ≤ s.size →
      (poly_vector.shrinkSteps s k).size = s.size - k ∧
      (poly_vector.shrinkSteps s k).contents = s.contents.take (s.size - k) ∧
      (poly_vector.shrinkSteps s k).capacity = s.capacity := by
  induction k with
  | zero =>
    intro s _
    rw [poly_vector.shrinkSteps]
    refine ⟨by omega, ?_, rfl⟩
    rw [List.take_of_length_le]
    rw [poly_vector.contents, List.length_map, List.length_take]
    omega
  | succ k ih =>
    intro s hk
    rw [poly_vector.shrinkSteps]
    obtain ⟨h1, h2, h3⟩ := ih s.popBackStep (by rw [popBackStep_size]; omega)
    refine ⟨by rw [h1, popBackStep_size]; omega, ?_,
      by rw [h3, popBackStep_capacity]⟩
    rw [h2, popBackStep_contents, popBackStep_size, List.take_take]
    congr 1
    omega

lemma growStep_size (s : poly_vector) : s.growStep.size = s.size + 1 := rfl

lemma growStep_capacity (s : poly_vector) :
    s.growStep.capacity = s.capacity := by
  show (s.slots.set s.size _).length = s.slots.length
  exact List.length_set _ _ _

lemma growStep_contents (s : poly_vector) (h : s.size < s.capacity) :
    s.growStep.contents = s.contents ++ [none] := by
  show ((s.slots.set s.size ⟨none, (s.slot s.size).ops⟩).take
      (s.size + 1)).map slot_info.ptr
    = (s.slots.take s.size).map slot_info.ptr ++ [none]
  rw [take_succ_set slot_info.empty _ _ _ h, List.map_append]
  rfl

lemma growSteps_spec (k : Nat) :
    ∀ s : poly_vector, s.size + k ≤ s.capacity →
      (poly_vector.growSteps s k).size = s.size + k ∧
      (poly_vector.growSteps s k).contents =
        s.contents ++ List.replicate k none ∧
      (poly_vector.growSteps s k).capacity = s.capacity := by
  induction k with
  | zero =>
    intro s _
    rw [poly_vector.growSteps]
    exact ⟨by omega, by simp, rfl⟩
  | succ k ih =>
    intro s hk
    rw [poly_vector.growSteps]
    obtain ⟨h1, h2, h3⟩ := ih s.growStep
      (by rw [growStep_size, growStep_capacity]; omega)
    refine ⟨by rw [h1, growStep_size]; omega, ?_, by rw [h3, growStep_capacity]⟩
    rw [h2, growStep_contents s (by omega), List.append_assoc]
    rfl

/-- C9: `resize(new_size)` signals `CapacityExceeded` with no state change
when `new_size > Capacity`; otherwise it succeeds with `size = new_size`:
shrinking repeatedly removes elements from the end (the surviving contents
are the first `new_size`), and growing appends occupied-with-null
positions (`ptr = nullptr`) while existing occupants are unchanged. -/
theorem claim9_resize (s : poly_vector) (n : Nat) :
    (n > s.capacity → s.resize n = .err .capacityExceeded s) ∧
    (n ≤ s.capacity → ∃ s', s.resize n = .ok s' ∧ s'.size = n ∧
      (n ≤ s.size → s'.contents = s.contents.take n) ∧
      (s.size ≤ n →
        s'.contents = s.contents ++ List.replicate (n - s.size) none)) := by
  constructor
  · intro h
    unfold poly_vector.resize
    rw [if_pos h]
  · intro h
    unfold poly_vector.resize
    rw [if_neg (by omega)]
    simp only []
    obtain ⟨h1, h2, h3⟩ := shrinkSteps_spec (s.size - n) s (by omega)
    obtain ⟨g1, g2, g3⟩ := growSteps_spec
      (n - (poly_vector.shrinkSteps s (s.size - n)).size)
      (poly_vector.shrinkSteps s (s.size - n)) (by rw [h1, h3]; omega)
    refine ⟨_, rfl, by rw [g1, h1]; omega, ?_, ?_⟩
    · intro hns
      rw [g2, h2, h1]
      have e1 : s.size - (s.size - n) = n := by omega
      rw [e1]
      have e2 : n - n = 0 := by omega
      rw [e2]
      simp
    · intro hsn
      rw [g2, h2, h1]
      have e1 : s.size - (s.size - n) = s.size := by omega
      rw [e1, List.take_of_length_le
        (by rw [poly_vector.contents, List.length_map, List.length_take]; omega)]

/-- C9 witness: the theorem at a concrete two-occupant vector of capacity
4, exercising the error case (`resize 9`), the shrink case (`resize 1`)
and the grow case (`resize 3`). -/
theorem claim9_witness :
    ((9 > ((poly_vector.init 4).emplace_back 1 tTriv true).state.capacity ∧
      ((poly_vector.init 4).emplace_back 1 tTriv true).state.resize 9 =
        .err .capacityExceeded
          ((poly_vector.init 4).emplace_back 1 tTriv true).state)) ∧
    (∃ s', ((poly_vector.init 4).emplace_back 1 tTriv true).state.resize 3 =
        .ok s' ∧ s'.size = 3 ∧
      (3 ≤ ((poly_vector.init 4).emplace_back 1 tTriv true).state.size →
        s'.contents =
          ((poly_vector.init 4).emplace_back 1 tTriv true).state.contents.take 3) ∧
      (((poly_vector.init 4).emplace_back 1 tTriv true).state.size ≤ 3 →
        s'.contents =
          ((poly_vector.init 4).emplace_back 1 tTriv true).state.contents ++
            List.replicate
              (3 - ((poly_vector.init 4).emplace_back 1 tTriv true).state.size)
              none)) :=
  ⟨⟨by decide,
    (claim9_resize ((poly_vector.init 4).emplace_back 1 tTriv true).state 9).1
      (by decide)⟩,
   (claim9_resize ((poly_vector.init 4).emplace_back 1 tTriv true).state 3).2
     (by decide)⟩

/-- C10: on an empty `poly_vector`, `pop_back()`, `front()` and `back()`
all throw `std::out_of_range`; `pop_back` leaves the state unchanged and
the accessors are pure. -/
theorem claim10_empty_vector_checks (s : poly_vector) (h : s.size = 0) :
    s.pop_back = .err .outOfRange s ∧
    s.front = .error .outOfRange ∧
    s.back = .error .outOfRange := by
  refine ⟨?_, ?_, ?_⟩ <;>
    simp [poly_vector.pop_back, poly_vector.front, poly_vector.back, h]

/-- C10 witness: the theorem at a concrete empty vector. -/
theorem claim10_witness :
    (poly_vector.init 2).size = 0 ∧
    ((poly_vector.init 2).pop_back = .err .outOfRange (poly_vector.init 2) ∧
     (poly_vector.init 2).front = .error .outOfRange ∧
     (poly_vector.init 2).back = .error .outOfRange) :=
  ⟨rfl, claim10_empty_vector_checks (poly_vector.init 2) rfl⟩

end InlinePoly
